import Mathlib

/-!
Verification development for the entry-splitting parser and routing state
machine of the jassist voice-diary pipeline
(`jassist/voice_diary/route_transcription/route_transcription.py` and
`jassist/voice_diary/route_transcription/db_interactions.py`).

The Python source is shallowly embedded: strings are `String` (lists of
characters), the regular expressions used by `parse_llm_response` are
hand-compiled into explicit leftmost-match scanners with the same
backtracking behaviour, and the two external collaborators
(`save_to_database` and the per-category handlers) are modelled as oracles
passed in as parameters.  `save_to_database` never raises (it catches all
exceptions internally and returns `None`), so it is a total function
returning `Option Nat`; a category handler may raise, so it returns
`Except Unit Bool`.  Character classes (`\s`, `\w`, `str.strip`,
`str.lower`) are modelled on the ASCII range, which covers every string
the theorems below quantify over.
-/

namespace Jassist

/-! ## Python character and string primitives -/

/-- Python `\s` / `str.strip` whitespace, ASCII range. -/
def isPySpace (c : Char) : Bool :=
  c = ' ' || c = '\t' || c = '\n' || c = '\r' || c = '\x0b' || c = '\x0c'

/-- Python `\w` word characters, ASCII range. -/
def isWordChar (c : Char) : Bool :=
  ('a' ≤ c && c ≤ 'z') || ('A' ≤ c && c ≤ 'Z') || ('0' ≤ c && c ≤ '9') || c = '_'

/-- Python `str.lower` on one character, ASCII range. -/
def lowerChar (c : Char) : Char :=
  if 'A' ≤ c ∧ c ≤ 'Z' then Char.ofNat (c.toNat + 32) else c

/-- Python `str.strip()` on a character list. -/
def pyStripCore (cs : List Char) : List Char :=
  ((cs.dropWhile isPySpace).reverse.dropWhile isPySpace).reverse

/-- Python `str.strip()`. -/
def pyStrip (s : String) : String := ⟨pyStripCore s.data⟩

/-- Python `str.lower()`. -/
def pyLower (s : String) : String := ⟨s.data.map lowerChar⟩

/-- Python substring membership `pat in s` on character lists. -/
def hasSub (pat : List Char) : List Char → Bool
  | [] => pat.isPrefixOf []
  | c :: rest => pat.isPrefixOf (c :: rest) || hasSub pat rest

/-- Python `pat in s` for strings. -/
def containsSub (s pat : String) : Bool := hasSub pat.data s.data

/-- Python `s.split("\n")`. -/
def pySplitLines : List Char → List (List Char)
  | [] => [[]]
  | '\n' :: rest => [] :: pySplitLines rest
  | c :: rest =>
    match pySplitLines rest with
    | part :: parts => (c :: part) :: parts
    | [] => [[c]]

/-- Python `s.split("\n\n")`: scan left to right; each non-overlapping
occurrence of two adjacent newlines cuts the list. -/
def pySplitBlank : List Char → List (List Char)
  | [] => [[]]
  | [c] => [[c]]
  | c :: d :: rest =>
    if c = '\n' ∧ d = '\n' then [] :: pySplitBlank rest
    else
      match pySplitBlank (d :: rest) with
      | part :: parts => (c :: part) :: parts
      | [] => [[c]]

/-- The literal `"text:"` as characters. -/
def textKey : List Char := ['t', 'e', 'x', 't', ':']

/-- The literal `"tag:"` as characters. -/
def tagKey : List Char := ['t', 'a', 'g', ':']

/-! ## The regular-expression scanners of `parse_llm_response`

Each Python `re.search` is compiled to a leftmost scan: `scanL try` runs
`try` at every suffix, left to right, and returns the first success,
exactly as `re.search` returns the match with the leftmost starting
position. -/

/-- Leftmost-match scanner: run a position matcher on every suffix, left to
right, returning the first success. -/
def scanL (t : List Char → Option α) : List Char → Option α
  | [] => t []
  | c :: rest =>
    match t (c :: rest) with
    | some a => some a
    | none => scanL t rest

/-- Position matcher for `text:\s*"([^"]*)"`: after the literal, greedy
whitespace must be followed by a quote (no shorter whitespace run can be,
so no backtracking arises), and the capture runs to the next quote, which
must exist. -/
def tryQuotedText (cs : List Char) : Option (List Char) :=
  if textKey.isPrefixOf cs then
    match (cs.drop 5).dropWhile isPySpace with
    | '"' :: r => if r.any (· = '"') then some (r.takeWhile (· ≠ '"')) else none
    | _ => none
  else none

/-- Search for `text:\s*"([^"]*)"`. -/
def searchQuotedText (cs : List Char) : Option (List Char) := scanL tryQuotedText cs

/-- The `(.+?)(?:\n|$)` part: succeeds iff a non-newline character is
available, capturing lazily up to (excluding) the next newline or the end. -/
def lazyDotTail (cs : List Char) : Option (List Char) :=
  match cs with
  | [] => none
  | c :: _ => if c = '\n' then none else some (cs.takeWhile (· ≠ '\n'))

/-- The `\s*(.+?)(?:\n|$)` part with the regex backtracking order: the
greedy whitespace run is preferred longest-first, falling back one
character at a time until the lazy dot-run can match. -/
def wsThenDot : List Char → Option (List Char)
  | [] => none
  | c :: rest =>
    if isPySpace c then
      match wsThenDot rest with
      | some g => some g
      | none => lazyDotTail (c :: rest)
    else lazyDotTail (c :: rest)

/-- Position matcher for `text:\s*(.+?)(?:\n|$)`. -/
def tryUnquotedText (cs : List Char) : Option (List Char) :=
  if textKey.isPrefixOf cs then wsThenDot (cs.drop 5) else none

/-- Search for `text:\s*(.+?)(?:\n|$)`. -/
def searchUnquotedText (cs : List Char) : Option (List Char) := scanL tryUnquotedText cs

/-- Greedy capture of `\w+(?:\s+\w+)*`; the caller guarantees the first
character is a word character.  Starting at a word character, the greedy
star consumes alternating word runs and whitespace runs as long as each
whitespace run is followed by another word character, so the whole match
is the longest prefix made of word and whitespace characters with its
trailing whitespace removed. -/
def tagGroupGo (cs : List Char) : List Char :=
  ((cs.takeWhile (fun c => isWordChar c || isPySpace c)).reverse.dropWhile
    isPySpace).reverse

/-- Position matcher for `tag:\s*(\w+(?:\s+\w+)*)`: after the literal and
greedy whitespace a word character must follow (shorter whitespace runs
end at whitespace, which is not a word character, so no backtracking
arises). -/
def tryTag (cs : List Char) : Option (List Char) :=
  if tagKey.isPrefixOf cs then
    if isWordChar (((cs.drop 4).dropWhile isPySpace).headD ' ')
    then some (tagGroupGo ((cs.drop 4).dropWhile isPySpace))
    else none
  else none

/-- Search for `tag:\s*(\w+(?:\s+\w+)*)`. -/
def searchTag (cs : List Char) : Option (List Char) := scanL tryTag cs

/-- Position matcher for `text:\s*"` (the quoted-marker check on line 48 of
`db_interactions.py`). -/
def tryQuoteMarker (cs : List Char) : Option Unit :=
  if textKey.isPrefixOf cs then
    match (cs.drop 5).dropWhile isPySpace with
    | '"' :: _ => some ()
    | _ => none
  else none

/-- Whether `re.search(r'text:\s*"', block)` succeeds. -/
def hasQuoteMarker (cs : List Char) : Bool := (scanL tryQuoteMarker cs).isSome

/-- Index of the first position where `pat` occurs, like `re.search(pat, s).start()`
for a literal pattern. -/
def findIdx (pat : List Char) : List Char → Option Nat
  | [] => if pat.isPrefixOf ([] : List Char) then some 0 else none
  | c :: rest =>
    if pat.isPrefixOf (c :: rest) then some 0
    else (findIdx pat rest).map (· + 1)

/-! ## The strict parser `parse_llm_response` -/

/-- One parsed entry: the dict `{'text': ..., 'tag': ...}`. -/
structure Entry where
  text : String
  tag : String
deriving DecidableEq, Repr

/-- Lines 47-58 of `db_interactions.py`: when the quoted marker is absent
and the block is multi-line, the text content is overwritten with the
stripped span between the end of `text:\s*` and the start of `tag:`,
provided the latter comes after the former. -/
def multilineFix (block : List Char) (tc : List Char) : List Char :=
  if hasQuoteMarker block = false ∧ block.contains '\n' then
    match findIdx textKey block, findIdx tagKey block with
    | some it, some ig =>
      let ts := it + 5 + ((block.drop (it + 5)).takeWhile isPySpace).length
      if ig > ts then pyStripCore ((block.drop ts).take (ig - ts)) else tc
    | _, _ => tc
  else tc

/-- Python `s[1:-1]` applied when the string both starts and ends with a
quote (lines 86-87 of `db_interactions.py`). -/
def dequote (cs : List Char) : List Char :=
  if cs.head? = some '"' ∧ cs.getLast? = some '"' then (cs.drop 1).dropLast else cs

/-- Lines 72-77: the first line whose stripped form starts with `tag:`,
with its index and `line.strip()[4:].strip().lower()`. -/
def findTagLine : List (List Char) → Nat → Option (Nat × List Char)
  | [], _ => none
  | l :: ls, i =>
    if tagKey.isPrefixOf (pyStripCore l)
    then some (i, (pyStripCore ((pyStripCore l).drop 4)).map lowerChar)
    else findTagLine ls (i + 1)

/-- Lines 81-89: the first line before the tag line whose stripped form
starts with `text:`, yielding `line.strip()[5:].strip()` with surrounding
quotes removed; empty if none. -/
def findTextBefore : List (List Char) → Nat → List Char
  | [], _ => []
  | l :: ls, ti =>
    if 0 < ti then
      if textKey.isPrefixOf (pyStripCore l)
      then dequote (pyStripCore ((pyStripCore l).drop 5))
      else findTextBefore ls (ti - 1)
    else []

/-- Lines 92-95: append the stripped middle lines (indices 1 to
`tag_line_idx - 1`) that do not start with `text:`, each preceded by a
space. -/
def joinMiddles (lines : List (List Char)) (ti : Nat) : List Char :=
  ((List.range ti).drop 1).flatMap fun i =>
    match lines.get? i with
    | some l =>
      if textKey.isPrefixOf (pyStripCore l) then [] else ' ' :: pyStripCore l
    | none => []

/-- Lines 66-101: the line-by-line fallback inside `parse_llm_response`,
run when the regexes fail but both markers occur in the block. -/
def lineScanBlock (block : List Char) : List Entry :=
  let lines := pySplitLines (pyStripCore block)
  match findTagLine lines 0 with
  | none => []
  | some (ti, tv) =>
    if ti > 0 then
      let tc1 := findTextBefore lines ti
      let tc := if tc1 ≠ [] ∧ ti > 1 then tc1 ++ joinMiddles lines ti else tc1
      if tc ≠ [] ∧ tv ≠ [] then [⟨⟨tc⟩, ⟨tv⟩⟩] else []
    else []

/-- Lines 34-101 of `db_interactions.py`: the per-block body of the strict
parser's loop, contributing zero or one entries. -/
def parseBlockStrict (block : List Char) : List Entry :=
  let textM :=
    match searchQuotedText block with
    | some g => some g
    | none => searchUnquotedText block
  match textM, searchTag block with
  | some g, some tg =>
    [⟨⟨multilineFix block (pyStripCore g)⟩, ⟨(pyStripCore tg).map lowerChar⟩⟩]
  | _, _ =>
    if hasSub textKey block ∧ hasSub tagKey block then lineScanBlock block else []

/-- Line 32: blocks are the blank-line splits, stripped, with empties
dropped. -/
def strictBlocks (s : String) : List (List Char) :=
  ((pySplitBlank s.data).map pyStripCore).filter (· ≠ [])

/-- The strict parser `parse_llm_response` of `db_interactions.py`. -/
def parse_llm_response (s : String) : List Entry :=
  (strictBlocks s).flatMap parseBlockStrict

/-! ## The permissive parser `parse_complex_llm_response` -/

/-- The last stripped line starting with the given key (the loop on lines
262-267 of `route_transcription.py` overwrites earlier hits). -/
def lastLineWith (key : List Char) (lines : List (List Char)) : Option (List Char) :=
  lines.foldl
    (fun acc l =>
      let ls := pyStripCore l
      if key.isPrefixOf ls then some ls else acc)
    none

/-- The per-block body of `parse_complex_llm_response` (lines 250-281 of
`route_transcription.py`). -/
def parseBlockComplex (block : List Char) : List Entry :=
  if pyStripCore block = [] then []
  else
    let lines := pySplitLines (pyStripCore block)
    if lines.length < 2 then []
    else
      match lastLineWith textKey lines, lastLineWith tagKey lines with
      | some tl, some gl =>
        [⟨⟨dequote (pyStripCore (tl.drop 5))⟩, ⟨pyStripCore (gl.drop 4)⟩⟩]
      | _, _ => []

/-- The permissive parser `parse_complex_llm_response` of
`route_transcription.py`. -/
def parse_complex_llm_response (s : String) : List Entry :=
  (pySplitBlank s.data).flatMap parseBlockComplex

/-! ## The router `route_transcription`

External collaborators are oracles: `save : Nat → Option Nat` gives the
result of the k-th `save_to_database` call of the invocation (that
function catches its own exceptions and returns `None` on failure, so it
is total), and `h : Handler → String → Option Nat → Except Unit Bool`
gives each category handler's behaviour, which may raise.  The router
itself contains no exception handling, so a raising handler propagates as
`Except.error`.  Alongside the result, a `RouteTrace` records the
arguments of every `save_to_database` call and of every dispatched
`process_entry_by_tag` call, in order, so that theorems can speak about
which entry was persisted or dispatched with which id. -/

/-- The category handlers reachable from `process_entry_by_tag`. -/
inductive Handler
  | calendar
  | diary
  | todo
  | accounts
  | contacts
  | entities
deriving DecidableEq, Repr

/-- The if/elif chain of `process_entry_by_tag` (lines 302-313 of
`route_transcription.py`), mapping a lower-cased category label to its
handler; `none` means the final else branch. -/
def tagHandler (t : String) : Option Handler :=
  if t = "calendar" then some .calendar
  else if t = "diary" then some .diary
  else if t = "to_do" ∨ t = "todo" then some .todo
  else if t = "accounts" ∨ t = "account" then some .accounts
  else if t = "contacts" ∨ t = "contact" then some .contacts
  else if t = "entities" ∨ t = "entity" then some .entities
  else none

/-- `process_entry_by_tag` (lines 285-317): lower-case the tag, call the
matching handler, or return `True` without calling any handler when no
category matches. -/
def process_entry_by_tag (h : Handler → String → Option Nat → Except Unit Bool)
    (text tag : String) (db_id : Option Nat) : Except Unit Bool :=
  match tagHandler (pyLower tag) with
  | some hd => h hd text db_id
  | none => Except.ok true

/-- A handler family that never raises. -/
def okH (b : Handler → String → Option Nat → Bool) :
    Handler → String → Option Nat → Except Unit Bool :=
  fun hd t i => Except.ok (b hd t i)

/-- The boolean outcome of `process_entry_by_tag` under a non-raising
handler family. -/
def pureDispatch (b : Handler → String → Option Nat → Bool)
    (text tag : String) (db_id : Option Nat) : Bool :=
  match tagHandler (pyLower tag) with
  | some hd => b hd text db_id
  | none => true

/-- One element of the `processed_entries` list: the per-entry dict built
on lines 169-174 (with an `id` key) or lines 203-207 (without one). -/
structure ProcessedEntry where
  pid : Option Nat
  text : String
  tag : String
  success : Bool
deriving DecidableEq, Repr

deriving instance DecidableEq for Except

/-- One dispatched `process_entry_by_tag` call, with its arguments and its
outcome. -/
structure DispatchCall where
  text : String
  tag : String
  db_id : Option Nat
  result : Except Unit Bool
deriving DecidableEq, Repr

/-- The result dict of `route_transcription`.  `success_count` is absent
from the dict on the save-failure return path; it is modelled as `0`
there, and `message` is the optional `"Database save failed"` entry. -/
structure RoutingResult where
  status : String
  db_id : Option Nat
  tag : String
  additional_processing : Bool
  entries_processed : Nat
  success_count : Nat
  processed_entries : List ProcessedEntry
  message : Option String
deriving DecidableEq, Repr

/-- The observable calls made to the collaborators during one invocation:
`save_to_database` arguments `(text, tag)` in call order, and the
dispatched calls in dispatch order. -/
structure RouteTrace where
  saves : List (String × String)
  dispatches : List DispatchCall
deriving DecidableEq, Repr

/-- Python truncation `entry_text[:50] + "..." if len(entry_text) > 50 else
entry_text`. -/
def pyTruncate (s : String) : String :=
  if s.data.length > 50 then ⟨s.data.take 50⟩ ++ "..." else s

/-- Lines 52-55 and 62/68: the multi-entry detection gate, true when the
field contains both `"text:"` and `"tag:"` (the empty string fails the
Python truthiness test but also fails the substring test, so the gate is
just the conjunction of the two substring tests). -/
def multiGate (s : String) : Bool := containsSub s "text:" && containsSub s "tag:"

/-- Lines 57-71: the entries parsed before saving — the tag field first,
then, if that yielded nothing, the text field. -/
def entriesFromInput (text tag : String) : List Entry :=
  let e1 := if multiGate tag then parse_llm_response tag else []
  if e1.isEmpty then (if multiGate text then parse_llm_response text else []) else e1

/-- Lines 126-150: when nothing was parsed before saving and nothing was
saved per entry, retry the strict parser and fall back to the permissive
parser, again tag field first. -/
def fallbackEntries (text tag : String) : List Entry :=
  let e1 :=
    if multiGate tag then
      (let p := parse_llm_response tag
       if p.isEmpty then parse_complex_llm_response tag else p)
    else []
  if e1.isEmpty then
    (if multiGate text then
      (let p := parse_llm_response text
       if p.isEmpty then parse_complex_llm_response text else p)
     else [])
  else e1

/-- Lines 81-98: save each parsed entry, collecting the ids of the
successful saves in order.  The k-th entry's save returns `save k`; the
Python code keeps an id only when it is truthy (`if entry_id:`), i.e.
non-`None` and non-zero. -/
def saveEntriesLoop (save : Nat → Option Nat) : Nat → List Entry → List Nat
  | _, [] => []
  | k, _ :: es =>
    match save k with
    | some id => if id ≠ 0 then id :: saveEntriesLoop save (k + 1) es
                 else saveEntriesLoop save (k + 1) es
    | none => saveEntriesLoop save (k + 1) es

/-- Lines 159-178: dispatch the saved entries, pairing the idx-th saved id
with `entries_from_input[idx]` (skipping ids with no matching index).
Returns the accumulated `processed_entries`, `processed_count` and
`success_count` (or the first escaping exception) together with the
dispatched calls. -/
def processSavedLoop (h : Handler → String → Option Nat → Except Unit Bool)
    (es : List Entry) :
    Nat → List Nat → Except Unit (List ProcessedEntry × Nat × Nat) × List DispatchCall
  | _, [] => (Except.ok ([], 0, 0), [])
  | idx, id :: ids =>
    match es.get? idx with
    | some e =>
      match process_entry_by_tag h e.text e.tag (some id) with
      | .error u => (.error u, [⟨e.text, e.tag, some id, .error u⟩])
      | .ok b =>
        let rest := processSavedLoop h es (idx + 1) ids
        let call : DispatchCall := ⟨e.text, e.tag, some id, .ok b⟩
        match rest.1 with
        | .error u => (.error u, call :: rest.2)
        | .ok (pes, pc, sc) =>
          (.ok (⟨some id, pyTruncate e.text, e.tag, b⟩ :: pes, pc + 1,
                sc + (if b then 1 else 0)),
           call :: rest.2)
    | none => processSavedLoop h es (idx + 1) ids

/-- Lines 192-211: dispatch the parsed entries, all with the shared
`db_id`; the per-entry tag is stripped first (line 197). -/
def processParsedLoop (h : Handler → String → Option Nat → Except Unit Bool)
    (dbid : Option Nat) :
    List Entry → Except Unit (List ProcessedEntry × Nat × Nat) × List DispatchCall
  | [] => (Except.ok ([], 0, 0), [])
  | e :: es =>
    match process_entry_by_tag h e.text (pyStrip e.tag) dbid with
    | .error u => (.error u, [⟨e.text, pyStrip e.tag, dbid, .error u⟩])
    | .ok b =>
      let rest := processParsedLoop h dbid es
      let call : DispatchCall := ⟨e.text, pyStrip e.tag, dbid, .ok b⟩
      match rest.1 with
      | .error u => (.error u, call :: rest.2)
      | .ok (pes, pc, sc) =>
        (.ok (⟨none, pyTruncate e.text, pyStrip e.tag, b⟩ :: pes, pc + 1,
              sc + (if b then 1 else 0)),
         call :: rest.2)

/-- The early-return dict of lines 116-119. -/
def failedSaveResult (tag : String) : RoutingResult :=
  ⟨"failed", none, tag, false, 0, 0, [], some "Database save failed"⟩

/-- Lines 124-233: the dispatch phase.  `efi` is `entries_from_input`,
`savedIds` is `saved_entries_ids`; when both are empty the parse is
retried with the permissive fallback, then the saved path, the parsed
path or the single-entry path runs. -/
def routeDispatch (h : Handler → String → Option Nat → Except Unit Bool)
    (text tag : String) (dbid : Option Nat) (efi : List Entry)
    (savedIds : List Nat) : Except Unit RoutingResult × List DispatchCall :=
  match savedIds with
  | _ :: _ =>
    let r := processSavedLoop h efi 0 savedIds
    match r.1 with
    | .error u => (.error u, r.2)
    | .ok (pes, pc, sc) =>
      (.ok ⟨if sc > 0 then "success" else "failed", dbid, tag,
            decide (pc > 0), pc, sc, pes, none⟩, r.2)
  | [] =>
    match (if efi.isEmpty then fallbackEntries text tag else efi) with
    | [] =>
      match process_entry_by_tag h text tag dbid with
      | .error u => (.error u, [⟨text, tag, dbid, .error u⟩])
      | .ok b =>
        (.ok ⟨if b then "success" else "failed", dbid, tag, b, 1,
              if b then 1 else 0, [], none⟩,
         [⟨text, tag, dbid, .ok b⟩])
    | e :: es =>
      let r := processParsedLoop h dbid (e :: es)
      match r.1 with
      | .error u => (.error u, r.2)
      | .ok (pes, pc, sc) =>
        (.ok ⟨if sc > 0 then "success" else "failed", dbid, tag,
              decide (pc > 0), pc, sc, pes, none⟩, r.2)

/-- Attach the save trace to a dispatch-phase outcome. -/
def withSaves (p : Except Unit RoutingResult × List DispatchCall)
    (sv : List (String × String)) : Except Unit RoutingResult × RouteTrace :=
  (p.1, ⟨sv, p.2⟩)

/-- `route_transcription` (lines 16-233 of `route_transcription.py`).
The save phase runs only when the caller supplied no `db_id`: parsed
entries are each saved (collecting truthy ids), otherwise the whole
text/tag is saved once; failure to obtain any id returns the failed
result.  The dispatch phase then routes the saved entries, the parsed
entries, or the single entry. -/
def route_transcription (save : Nat → Option Nat)
    (h : Handler → String → Option Nat → Except Unit Bool)
    (text tag : String) (db_id : Option Nat) :
    Except Unit RoutingResult × RouteTrace :=
  match db_id with
  | some d =>
    withSaves (routeDispatch h text tag (some d) (entriesFromInput text tag) []) []
  | none =>
    match entriesFromInput text tag with
    | [] =>
      match save 0 with
      | none => (Except.ok (failedSaveResult tag), ⟨[(text, tag)], []⟩)
      | some d => withSaves (routeDispatch h text tag (some d) [] []) [(text, tag)]
    | e :: es =>
      match saveEntriesLoop save 0 (e :: es) with
      | [] =>
        (Except.ok (failedSaveResult tag),
         ⟨(e :: es).map (fun x => (x.text, x.tag)), []⟩)
      | d :: ds =>
        withSaves (routeDispatch h text tag (some d) (e :: es) (d :: ds))
          ((e :: es).map (fun x => (x.text, x.tag)))

/-! ## Concrete oracles and inputs used by witnesses and counterexamples -/

/-- Whether a dispatch outcome is a returned `True`. -/
def isOkTrue (r : Except Unit Bool) : Bool :=
  match r with
  | .ok true => true
  | _ => false

/-- Handlers that all return `True`. -/
def allTrue : Handler → String → Option Nat → Bool := fun _ _ _ => true

/-- Handlers that all return `False`. -/
def allFalse : Handler → String → Option Nat → Bool := fun _ _ _ => false

/-- Handlers where only the diary handler returns `True`. -/
def onlyDiary : Handler → String → Option Nat → Bool :=
  fun hd _ _ =>
    match hd with
    | .diary => true
    | _ => false

/-- A handler family whose calendar handler raises. -/
def calRaises : Handler → String → Option Nat → Except Unit Bool :=
  fun hd _ _ =>
    match hd with
    | .calendar => .error ()
    | _ => .ok true

/-- A save oracle returning id `k + 10` for the k-th call. -/
def saveSeq : Nat → Option Nat := fun k => some (k + 10)

/-- A save oracle failing on the first call and returning id 7 afterwards. -/
def saveFailFirst : Nat → Option Nat := fun k => if k = 0 then none else some 7

/-- A classifier output holding two well-formed entries. -/
def twoEntryTag : String := "text: \"a\"\ntag: calendar\n\ntext: \"b\"\ntag: diary"

/-- A classifier output holding three well-formed entries. -/
def threeEntryTag : String :=
  "text: \"a\"\ntag: calendar\n\ntext: \"b\"\ntag: diary\n\ntext: \"c\"\ntag: todo"

/-- A text that passes the detection gate, defeats the strict parser (the
tag line comes first and its value has no word character), yet parses
under the permissive parser. -/
def permText : String := "tag: -\ntext: hello"

/-! ## Well-formed multi-block inputs (for the parser theorems)

A well-formed block in the sense of the spec's testable property has
exactly one quoted `text:` line and one `tag:` line.  `mkBlock` builds
such a block; `goodText`/`goodTag` state the well-formedness of its two
payloads; `joinBlocks` joins blocks with blank lines. -/

/-- The block `text: "t"\ntag: g`. -/
def mkBlock (t g : List Char) : List Char :=
  textKey ++ ' ' :: '"' :: t ++ '"' :: '\n' :: tagKey ++ ' ' :: g

/-- Join blocks with blank lines (one between each pair). -/
def joinBlocks : List (List Char) → List Char
  | [] => []
  | [b] => b
  | b :: b2 :: bs => b ++ '\n' :: '\n' :: joinBlocks (b2 :: bs)

/-- Well-formedness of a quoted text payload: no quote, no newline, and
no occurrence of the `tag:` marker (so the block has exactly one `tag:`
line). -/
def goodText (t : List Char) : Bool :=
  (t.all fun c => !(c == '"') && !(c == '\n')) && !hasSub tagKey t

/-- Well-formedness of a tag payload: non-empty, made of word characters
and spaces only, beginning and ending with a word character. -/
def goodTag (g : List Char) : Bool :=
  !g.isEmpty && (g.all fun c => isWordChar c || c == ' ') &&
    isWordChar (g.headD ' ') && isWordChar (g.getLastD ' ')

/-- No two adjacent newlines (so a Python split on a blank line cannot
cut inside the list). -/
def noBlank : List Char → Bool
  | [] => true
  | [_] => true
  | c :: d :: rest => !(c == '\n' && d == '\n') && noBlank (d :: rest)

/-! ## C9: unrecognized categories are no-op successes -/

/-- C9: for every dispatch of an entry whose lower-cased category is not
one of calendar, diary, to_do/todo, accounts/account, contacts/contact,
entities/entity, `process_entry_by_tag` returns `True` without invoking
any category handler (the result is `ok true` for every handler family
`h`, so no handler's behaviour can influence it). -/
theorem process_entry_unknown_tag_noop
    (h : Handler → String → Option Nat → Except Unit Bool)
    (text tag : String) (db_id : Option Nat)
    (hu : pyLower tag ∉ (["calendar", "diary", "to_do", "todo", "accounts",
        "account", "contacts", "contact", "entities", "entity"] : List String)) :
    process_entry_by_tag h text tag db_id = Except.ok true := by
  simp only [List.mem_cons, List.not_mem_nil, or_false, not_or] at hu
  obtain ⟨h1, h2, h3, h4, h5, h6, h7, h8, h9, h10⟩ := hu
  unfold process_entry_by_tag tagHandler
  simp [h1, h2, h3, h4, h5, h6, h7, h8, h9, h10]

/-- Witness for C9 at the spec's own example category, with handlers that
would all fail if consulted. -/
theorem process_entry_unknown_tag_noop_witness :
    process_entry_by_tag (okH allFalse) "Lunch with Sam" "reminder" none =
      Except.ok true :=
  process_entry_unknown_tag_noop (okH allFalse) "Lunch with Sam" "reminder" none
    (by decide)

/-! ## C5: a mid-list save failure misaligns entries and ids -/

/-- C5 (code bug): the claim says that when the save of the i-th of N
parsed entries fails, exactly that entry is skipped and every other entry
is dispatched with its own saved id.  The code instead zips the parsed
entries positionally with the compacted list of successful ids: with two
parsed entries whose first save fails and whose second save returns id 7,
the first entry (whose save failed) is dispatched with id 7 — the second
entry's id — and the second entry is never dispatched at all, contradicting
the claim and the code's own comment that each entry is processed using
its own id. -/
theorem route_save_failure_misalignment :
    route_transcription saveFailFirst (okH allTrue) "x" twoEntryTag none =
      (Except.ok ⟨"success", some 7, twoEntryTag, true, 1, 1,
          [⟨some 7, "a", "calendar", true⟩], none⟩,
       ⟨[("a", "calendar"), ("b", "diary")],
        [⟨"a", "calendar", some 7, Except.ok true⟩]⟩) := by
  rfl

/-! ## C2: handler exceptions are not caught by the router -/

/-- C2 counterexample: with two parsed entries and a calendar handler that
raises, the invocation does not return a `RoutingResult` at all — the
exception escapes to the caller — and the second entry is never
dispatched, contradicting the claim that the exception is caught, the
entry is recorded with success false, and remaining entries are still
dispatched. -/
theorem route_handler_exception_escapes_cex :
    route_transcription (fun _ => some 1) calRaises "x" twoEntryTag (some 5) =
      (Except.error (),
       ⟨[], [⟨"a", "calendar", some 5, Except.error ()⟩]⟩) := by
  rfl

/-- C2 amended: a handler exception is not caught by the router: when the
dispatch of the first parsed entry raises, the whole invocation yields
that exception instead of a `RoutingResult`, exactly one dispatch was
attempted, and none of the remaining entries are dispatched. -/
theorem route_handler_exception_propagates
    (save : Nat → Option Nat) (h : Handler → String → Option Nat → Except Unit Bool)
    (text tag : String) (d : Nat) (e : Entry) (rest : List Entry) (u : Unit)
    (hefi : entriesFromInput text tag = e :: rest)
    (hdisp : process_entry_by_tag h e.text (pyStrip e.tag) (some d) = Except.error u) :
    route_transcription save h text tag (some d) =
      (Except.error u, ⟨[], [⟨e.text, pyStrip e.tag, some d, Except.error u⟩]⟩) := by
  unfold route_transcription routeDispatch withSaves
  rw [hefi]
  simp only [List.isEmpty_cons, Bool.false_eq_true, if_false]
  unfold processParsedLoop
  rw [hdisp]

/-- Witness for the amended C2 at a concrete raising calendar handler. -/
theorem route_handler_exception_propagates_witness :
    route_transcription (fun _ => some 1) calRaises "x" twoEntryTag (some 5) =
      (Except.error (), ⟨[], [⟨"a", "calendar", some 5, Except.error ()⟩]⟩) :=
  route_handler_exception_propagates (fun _ => some 1) calRaises "x" twoEntryTag 5
    ⟨"a", "calendar"⟩ [⟨"b", "diary"⟩] () (by rfl) (by rfl)

/-! ## C3: aggregation counts and the at-least-one-success policy -/

/-- Helper: the status expression of lines 184/217/221 is `"success"`
exactly when the success count is positive. -/
theorem status_iff_pos (sc : Nat) :
    ((if sc > 0 then "success" else "failed") = "success") ↔ 0 < sc := by
  by_cases h0 : sc > 0
  · rw [if_pos h0]
    exact ⟨fun _ => h0, fun _ => rfl⟩
  · rw [if_neg h0]
    exact ⟨fun hc => absurd hc (by decide), fun hlt => absurd hlt h0⟩

/-- Helper: counting invariant of the parsed-entries dispatch loop: when
it completes without an exception, `processed_count` equals the number of
dispatched calls, `success_count` equals the number of calls that returned
`True`, and one `processed_entries` element exists per dispatch. -/
theorem processParsedLoop_counts
    (h : Handler → String → Option Nat → Except Unit Bool) (dbid : Option Nat) :
    ∀ (es : List Entry) (pes : List ProcessedEntry) (pc sc : Nat)
      (calls : List DispatchCall),
      processParsedLoop h dbid es = (Except.ok (pes, pc, sc), calls) →
      pc = calls.length ∧
      sc = (calls.filter (fun c => isOkTrue c.result)).length ∧
      pes.length = pc
  | [], pes, pc, sc, calls, hrun => by
    simp only [processParsedLoop, Prod.mk.injEq, Except.ok.injEq] at hrun
    obtain ⟨⟨h1, h2, h3⟩, h4⟩ := hrun
    subst h1; subst h2; subst h3; subst h4
    simp
  | e :: es, pes, pc, sc, calls, hrun => by
    rw [processParsedLoop] at hrun
    cases hd : process_entry_by_tag h e.text (pyStrip e.tag) dbid with
    | error u => rw [hd] at hrun; simp at hrun
    | ok b =>
      rw [hd] at hrun
      simp only at hrun
      cases hp : processParsedLoop h dbid es with
      | mk r1 cl =>
        rw [hp] at hrun
        cases r1 with
        | error u => simp at hrun
        | ok trip =>
          obtain ⟨pes', pc', sc'⟩ := trip
          simp only [Prod.mk.injEq, Except.ok.injEq] at hrun
          obtain ⟨⟨h1, h2, h3⟩, h4⟩ := hrun
          subst h1; subst h2; subst h3; subst h4
          obtain ⟨ih1, ih2, ih3⟩ := processParsedLoop_counts h dbid es pes' pc' sc' cl hp
          refine ⟨by simp [ih1], ?_, by simp [ih3]⟩
          cases b <;> simp [isOkTrue, ih2, List.filter]

/-- Helper: the same counting invariant for the saved-entries dispatch
loop. -/
theorem processSavedLoop_counts
    (h : Handler → String → Option Nat → Except Unit Bool) (es : List Entry) :
    ∀ (ids : List Nat) (idx : Nat) (pes : List ProcessedEntry) (pc sc : Nat)
      (calls : List DispatchCall),
      processSavedLoop h es idx ids = (Except.ok (pes, pc, sc), calls) →
      pc = calls.length ∧
      sc = (calls.filter (fun c => isOkTrue c.result)).length ∧
      pes.length = pc
  | [], idx, pes, pc, sc, calls, hrun => by
    simp only [processSavedLoop, Prod.mk.injEq, Except.ok.injEq] at hrun
    obtain ⟨⟨h1, h2, h3⟩, h4⟩ := hrun
    subst h1; subst h2; subst h3; subst h4
    simp
  | id :: ids, idx, pes, pc, sc, calls, hrun => by
    rw [processSavedLoop] at hrun
    cases hg : es.get? idx with
    | none =>
      rw [hg] at hrun
      simp only at hrun
      exact processSavedLoop_counts h es ids (idx + 1) pes pc sc calls hrun
    | some e =>
      rw [hg] at hrun
      simp only at hrun
      cases hd : process_entry_by_tag h e.text e.tag (some id) with
      | error u => rw [hd] at hrun; simp at hrun
      | ok b =>
        rw [hd] at hrun
        simp only at hrun
        cases hp : processSavedLoop h es (idx + 1) ids with
        | mk r1 cl =>
          rw [hp] at hrun
          cases r1 with
          | error u => simp at hrun
          | ok trip =>
            obtain ⟨pes', pc', sc'⟩ := trip
            simp only [Prod.mk.injEq, Except.ok.injEq] at hrun
            obtain ⟨⟨h1, h2, h3⟩, h4⟩ := hrun
            subst h1; subst h2; subst h3; subst h4
            obtain ⟨ih1, ih2, ih3⟩ :=
              processSavedLoop_counts h es ids (idx + 1) pes' pc' sc' cl hp
            refine ⟨by simp [ih1], ?_, by simp [ih3]⟩
            cases b <;> simp [isOkTrue, ih2, List.filter]

/-- Helper: the aggregation invariant for the whole dispatch phase. -/
theorem routeDispatch_counts
    (h : Handler → String → Option Nat → Except Unit Bool)
    (text tag : String) (dbid : Option Nat) (efi : List Entry)
    (savedIds : List Nat) (res : RoutingResult) (calls : List DispatchCall)
    (hrun : routeDispatch h text tag dbid efi savedIds = (Except.ok res, calls)) :
    res.entries_processed = calls.length ∧
    res.success_count = (calls.filter (fun c => isOkTrue c.result)).length ∧
    (res.status = "success" ↔ 0 < res.success_count) := by
  cases savedIds with
  | cons id ids =>
    rw [routeDispatch] at hrun
    cases hp : processSavedLoop h efi 0 (id :: ids) with
    | mk r1 cl =>
      rw [hp] at hrun
      cases r1 with
      | error u => simp at hrun
      | ok trip =>
        obtain ⟨pes, pc, sc⟩ := trip
        simp only [Prod.mk.injEq, Except.ok.injEq] at hrun
        obtain ⟨h1, h2⟩ := hrun
        subst h1; subst h2
        obtain ⟨ih1, ih2, _⟩ := processSavedLoop_counts h efi (id :: ids) 0 pes pc sc cl hp
        exact ⟨ih1, ih2, status_iff_pos sc⟩
  | nil =>
    rw [routeDispatch] at hrun
    cases hE : (if efi.isEmpty then fallbackEntries text tag else efi) with
    | nil =>
      rw [hE] at hrun
      simp only at hrun
      cases hd : process_entry_by_tag h text tag dbid with
      | error u => rw [hd] at hrun; simp at hrun
      | ok b =>
        rw [hd] at hrun
        simp only [Prod.mk.injEq, Except.ok.injEq] at hrun
        obtain ⟨h1, h2⟩ := hrun
        subst h1; subst h2
        refine ⟨by simp, ?_, ?_⟩
        · cases b <;> simp [isOkTrue, List.filter]
        · cases b <;> simp only <;>
            exact ⟨fun hc => by simp_all, fun hlt => by simp_all⟩
    | cons e es =>
      rw [hE] at hrun
      simp only at hrun
      cases hp : processParsedLoop h dbid (e :: es) with
      | mk r1 cl =>
        rw [hp] at hrun
        cases r1 with
        | error u => simp at hrun
        | ok trip =>
          obtain ⟨pes, pc, sc⟩ := trip
          simp only [Prod.mk.injEq, Except.ok.injEq] at hrun
          obtain ⟨h1, h2⟩ := hrun
          subst h1; subst h2
          obtain ⟨ih1, ih2, _⟩ :=
            processParsedLoop_counts h dbid (e :: es) pes pc sc cl hp
          exact ⟨ih1, ih2, status_iff_pos sc⟩

/-- C3: for every invocation of `route_transcription` that completes with
a result after at least one dispatch, `entries_processed` equals the
number of dispatch attempts, `success_count` equals the number of
dispatches that returned `True`, and the status is `"success"` exactly
when `success_count` is positive. -/
theorem route_aggregation_counts (save : Nat → Option Nat)
    (h : Handler → String → Option Nat → Except Unit Bool)
    (text tag : String) (dbid : Option Nat) (res : RoutingResult) (tr : RouteTrace)
    (hrun : route_transcription save h text tag dbid = (Except.ok res, tr))
    (hn : 1 ≤ tr.dispatches.length) :
    res.entries_processed = tr.dispatches.length ∧
    res.success_count = (tr.dispatches.filter (fun c => isOkTrue c.result)).length ∧
    (res.status = "success" ↔ 0 < res.success_count) := by
  cases dbid with
  | some d =>
    rw [route_transcription] at hrun
    cases hp : routeDispatch h text tag (some d) (entriesFromInput text tag) [] with
    | mk r1 cl =>
      rw [hp, withSaves] at hrun
      simp only [Prod.mk.injEq] at hrun
      obtain ⟨h1, h2⟩ := hrun
      subst h1; subst h2
      exact routeDispatch_counts h text tag (some d) (entriesFromInput text tag) [] res cl hp
  | none =>
    rw [route_transcription] at hrun
    cases hefi : entriesFromInput text tag with
    | nil =>
      rw [hefi] at hrun
      simp only at hrun
      cases hs : save 0 with
      | none =>
        rw [hs] at hrun
        simp only at hrun
        simp only [Prod.mk.injEq] at hrun
        obtain ⟨h1, h2⟩ := hrun
        rw [← h2] at hn
        simp at hn
      | some d =>
        rw [hs] at hrun
        simp only at hrun
        cases hp : routeDispatch h text tag (some d) [] [] with
        | mk r1 cl =>
          rw [hp, withSaves] at hrun
          simp only [Prod.mk.injEq] at hrun
          obtain ⟨h1, h2⟩ := hrun
          subst h1; subst h2
          exact routeDispatch_counts h text tag (some d) [] [] res cl hp
    | cons e es =>
      rw [hefi] at hrun
      simp only at hrun
      cases hsl : saveEntriesLoop save 0 (e :: es) with
      | nil =>
        rw [hsl] at hrun
        simp only at hrun
        simp only [Prod.mk.injEq] at hrun
        obtain ⟨h1, h2⟩ := hrun
        rw [← h2] at hn
        simp at hn
      | cons d ds =>
        rw [hsl] at hrun
        simp only at hrun
        cases hp : routeDispatch h text tag (some d) (e :: es) (d :: ds) with
        | mk r1 cl =>
          rw [hp, withSaves] at hrun
          simp only [Prod.mk.injEq] at hrun
          obtain ⟨h1, h2⟩ := hrun
          subst h1; subst h2
          exact routeDispatch_counts h text tag (some d) (e :: es) (d :: ds) res cl hp

/-- Witness for C3 at the spec's own scenario: three entries of which
exactly one dispatch succeeds give status success, one success and three
processed entries. -/
theorem route_aggregation_counts_witness :
    (RoutingResult.mk "success" (some 4) threeEntryTag true 3 1
        [⟨none, "a", "calendar", false⟩, ⟨none, "b", "diary", true⟩,
         ⟨none, "c", "todo", false⟩] none).entries_processed =
      (RouteTrace.mk []
        [⟨"a", "calendar", some 4, Except.ok false⟩,
         ⟨"b", "diary", some 4, Except.ok true⟩,
         ⟨"c", "todo", some 4, Except.ok false⟩]).dispatches.length ∧
    (RoutingResult.mk "success" (some 4) threeEntryTag true 3 1
        [⟨none, "a", "calendar", false⟩, ⟨none, "b", "diary", true⟩,
         ⟨none, "c", "todo", false⟩] none).success_count =
      ((RouteTrace.mk []
        [⟨"a", "calendar", some 4, Except.ok false⟩,
         ⟨"b", "diary", some 4, Except.ok true⟩,
         ⟨"c", "todo", some 4, Except.ok false⟩]).dispatches.filter
          (fun c => isOkTrue c.result)).length ∧
    ((RoutingResult.mk "success" (some 4) threeEntryTag true 3 1
        [⟨none, "a", "calendar", false⟩, ⟨none, "b", "diary", true⟩,
         ⟨none, "c", "todo", false⟩] none).status = "success" ↔
      0 < (RoutingResult.mk "success" (some 4) threeEntryTag true 3 1
        [⟨none, "a", "calendar", false⟩, ⟨none, "b", "diary", true⟩,
         ⟨none, "c", "todo", false⟩] none).success_count) :=
  route_aggregation_counts (fun _ => some 1) (okH onlyDiary) "x" threeEntryTag
    (some 4) _ _ (by rfl) (by decide)

/-! ## C1: index alignment of saved entries, dispatches and results -/

/-- Helper: under a non-raising handler family the dispatch of one entry
returns the pure outcome. -/
theorem process_entry_okH (b : Handler → String → Option Nat → Bool)
    (text tag : String) (dbid : Option Nat) :
    process_entry_by_tag (okH b) text tag dbid =
      Except.ok (pureDispatch b text tag dbid) := by
  unfold process_entry_by_tag pureDispatch okH
  cases tagHandler (pyLower tag) <;> rfl

/-- Helper: a successful lookup splits a drop into a cons. -/
theorem drop_cons_of_getq : ∀ (l : List Entry) (i : Nat) (a : Entry),
    l.get? i = some a → l.drop i = a :: l.drop (i + 1)
  | [], i, a, h => by simp at h
  | x :: xs, 0, a, h => by
    simp only [List.get?] at h
    injection h with h
    subst h
    simp
  | x :: xs, i + 1, a, h => by
    simp only [List.get?] at h
    have := drop_cons_of_getq xs i a h
    simpa using this

/-- Helper: when every per-entry save succeeds with a truthy id, the save
loop collects exactly one id per entry, in order. -/
theorem saveEntriesLoop_all (save : Nat → Option Nat) (f : Nat → Nat) :
    ∀ (es : List Entry) (k : Nat),
      (∀ j, j < es.length → save (k + j) = some (f (k + j)) ∧ f (k + j) ≠ 0) →
      saveEntriesLoop save k es = (List.range es.length).map (fun j => f (k + j))
  | [], k, _ => by simp [saveEntriesLoop]
  | e :: es, k, hs => by
    have h0 := hs 0 (by simp)
    rw [Nat.add_zero] at h0
    rw [saveEntriesLoop, h0.1]
    simp only
    rw [if_pos h0.2]
    have ih := saveEntriesLoop_all save f es (k + 1) (fun j hj => by
      have hsj := hs (j + 1) (by simpa using Nat.succ_lt_succ hj)
      rwa [show k + (j + 1) = k + 1 + j by omega] at hsj)
    rw [ih, List.length_cons, List.range_succ_eq_map]
    simp only [List.map_cons, Nat.add_zero, List.map_map]
    congr 1
    apply List.map_congr_left
    intro j _
    simp only [Function.comp_apply]
    congr 1
    omega

/-- Helper: closed form of the saved-entries dispatch loop under a
non-raising handler family, when there are at least as many entries as
ids: the idx-th id is paired with the idx-th entry. -/
theorem processSavedLoop_okH (b : Handler → String → Option Nat → Bool)
    (es : List Entry) :
    ∀ (ids : List Nat) (idx : Nat),
      idx + ids.length ≤ es.length →
      processSavedLoop (okH b) es idx ids =
        (Except.ok ((ids.zip (es.drop idx)).map (fun p =>
              ⟨some p.1, pyTruncate p.2.text, p.2.tag,
               pureDispatch b p.2.text p.2.tag (some p.1)⟩),
            ids.length,
            ((ids.zip (es.drop idx)).filter
              (fun p => pureDispatch b p.2.text p.2.tag (some p.1))).length),
         (ids.zip (es.drop idx)).map (fun p =>
              ⟨p.2.text, p.2.tag, some p.1,
               Except.ok (pureDispatch b p.2.text p.2.tag (some p.1))⟩))
  | [], idx, _ => by simp [processSavedLoop]
  | id :: ids, idx, hlen => by
    have hidx : idx < es.length := by
      simp only [List.length_cons] at hlen
      omega
    obtain ⟨e, hg⟩ : ∃ e, es.get? idx = some e := by
      cases hq : es.get? idx with
      | none => rw [List.get?_eq_none] at hq; omega
      | some e => exact ⟨e, rfl⟩
    have hdrop := drop_cons_of_getq es idx e hg
    rw [processSavedLoop, hg]
    simp only
    rw [process_entry_okH]
    simp only
    rw [processSavedLoop_okH b es ids (idx + 1) (by
      simp only [List.length_cons] at hlen
      omega)]
    simp only [hdrop, List.zip_cons_cons, List.map_cons, List.length_cons,
      List.filter_cons]
    cases hpd : pureDispatch b e.text e.tag (some id) <;>
      simp [List.length_cons, Nat.add_comm]

/-- Helper: closed form of the parsed-entries dispatch loop under a
non-raising handler family: every entry is dispatched with the shared id,
in order, with its tag stripped. -/
theorem processParsedLoop_okH (b : Handler → String → Option Nat → Bool)
    (dbid : Option Nat) :
    ∀ es : List Entry,
      processParsedLoop (okH b) dbid es =
        (Except.ok
          (es.map (fun e => ⟨none, pyTruncate e.text, pyStrip e.tag,
              pureDispatch b e.text (pyStrip e.tag) dbid⟩),
           es.length,
           (es.filter (fun e => pureDispatch b e.text (pyStrip e.tag) dbid)).length),
         es.map (fun e => ⟨e.text, pyStrip e.tag, dbid,
             Except.ok (pureDispatch b e.text (pyStrip e.tag) dbid)⟩))
  | [] => by simp [processParsedLoop]
  | e :: es => by
    rw [processParsedLoop, process_entry_okH]
    simp only
    rw [processParsedLoop_okH b dbid es]
    simp only [List.map_cons, List.length_cons, List.filter_cons]
    cases hpd : pureDispatch b e.text (pyStrip e.tag) dbid <;>
      simp [Nat.add_comm]

/-- C1: with no caller-supplied id, N parsed entries and every per-entry
save succeeding, `processed_entries` has one element per entry in parse
order; its i-th element carries the i-th entry's (truncated) text and tag
together with the i-th saved id, the i-th dispatch receives the i-th
saved id, and the result's `db_id` is the first saved id. -/
theorem route_saved_entries_index_alignment
    (save : Nat → Option Nat) (b : Handler → String → Option Nat → Bool)
    (f : Nat → Nat) (text tag : String) (es : List Entry)
    (res : RoutingResult) (tr : RouteTrace)
    (hefi : entriesFromInput text tag = es)
    (hne : es ≠ [])
    (hsave : ∀ k, k < es.length → save k = some (f k) ∧ f k ≠ 0)
    (hrun : route_transcription save (okH b) text tag none = (Except.ok res, tr)) :
    res.db_id = some (f 0) ∧
    res.processed_entries.length = es.length ∧
    tr.dispatches.length = es.length ∧
    ∀ i e, es.get? i = some e →
      res.processed_entries.get? i =
        some ⟨some (f i), pyTruncate e.text, e.tag,
              pureDispatch b e.text e.tag (some (f i))⟩ ∧
      tr.dispatches.get? i =
        some ⟨e.text, e.tag, some (f i),
              Except.ok (pureDispatch b e.text e.tag (some (f i)))⟩ := by
  have hids : saveEntriesLoop save 0 es = (List.range es.length).map f := by
    have := saveEntriesLoop_all save f es 0 (fun j hj => by
      simpa using hsave j hj)
    simpa using this
  cases es with
  | nil => exact absurd rfl hne
  | cons e0 es' =>
    rw [route_transcription, hefi] at hrun
    simp only at hrun
    rw [hids] at hrun
    have hrange : (List.range (e0 :: es').length).map f =
        f 0 :: (List.range es'.length).map (fun j => f (j + 1)) := by
      rw [List.length_cons, List.range_succ_eq_map]
      simp [List.map_map, Function.comp]
    rw [hrange] at hrun
    simp only at hrun
    rw [routeDispatch] at hrun
    rw [processSavedLoop_okH b (e0 :: es')
      (f 0 :: (List.range es'.length).map (fun j => f (j + 1))) 0
      (by simp)] at hrun
    simp only [List.drop_zero, withSaves, Prod.mk.injEq] at hrun
    obtain ⟨h1, h2⟩ := hrun
    injection h1 with h1
    subst h1
    subst h2
    refine ⟨rfl, ?_, ?_, ?_⟩
    · simp [List.length_zip]
    · simp [List.length_zip]
    · intro i e hg
      have hlt : i < (e0 :: es').length := by
        by_contra hge
        rw [List.get?_eq_none.mpr (by omega)] at hg
        exact absurd hg (by simp)
      have hidget : (f 0 :: (List.range es'.length).map (fun j => f (j + 1))).get? i
          = some (f i) := by
        cases i with
        | zero => rfl
        | succ i' =>
          have hi' : i' < es'.length := by
            simp only [List.length_cons] at hlt
            omega
          rw [List.get?_cons_succ, List.get?_map, List.get?_range hi']
          rfl
      have hzip : ((f 0 :: (List.range es'.length).map (fun j => f (j + 1))).zip
          (e0 :: es')).get? i = some (f i, e) :=
        (List.get?_zip_eq_some _ _ _ _).mpr ⟨hidget, hg⟩
      constructor
      · rw [List.get?_map, hzip]
        rfl
      · rw [List.get?_map, hzip]
        rfl

/-- Witness for C1: two entries saved with ids 10 and 11; the second
processed element and the second dispatch both carry id 11, and the
result's id is the first saved id 10. -/
theorem route_saved_entries_index_alignment_witness :
    (RoutingResult.mk "success" (some 10) twoEntryTag true 2 2
        [⟨some 10, "a", "calendar", true⟩, ⟨some 11, "b", "diary", true⟩]
        none).db_id = some 10 ∧
    (RoutingResult.mk "success" (some 10) twoEntryTag true 2 2
        [⟨some 10, "a", "calendar", true⟩, ⟨some 11, "b", "diary", true⟩]
        none).processed_entries.get? 1 =
      some ⟨some 11, "b", "diary", true⟩ ∧
    (RouteTrace.mk [("a", "calendar"), ("b", "diary")]
        [⟨"a", "calendar", some 10, Except.ok true⟩,
         ⟨"b", "diary", some 11, Except.ok true⟩]).dispatches.get? 1 =
      some ⟨"b", "diary", some 11, Except.ok true⟩ :=
  have h := route_saved_entries_index_alignment saveSeq allTrue (fun k => k + 10)
    "x" twoEntryTag [⟨"a", "calendar"⟩, ⟨"b", "diary"⟩]
    (RoutingResult.mk "success" (some 10) twoEntryTag true 2 2
      [⟨some 10, "a", "calendar", true⟩, ⟨some 11, "b", "diary", true⟩] none)
    (RouteTrace.mk [("a", "calendar"), ("b", "diary")]
      [⟨"a", "calendar", some 10, Except.ok true⟩,
       ⟨"b", "diary", some 11, Except.ok true⟩])
    (by rfl) (by decide) (by decide) (by rfl)
  ⟨h.1, (h.2.2.2 1 ⟨"b", "diary"⟩ (by rfl)).1, (h.2.2.2 1 ⟨"b", "diary"⟩ (by rfl)).2⟩

/-! ## C4: entries recovered only by the permissive parser are not saved
individually -/

/-- C4 counterexample: on an input whose detection gate fires, where the
strict parser yields nothing and the permissive parser yields one entry
with text `"hello"`, the router performs exactly one save — receiving the
whole input text and the whole raw tag, not the entry's own text and tag —
before dispatching the permissive entry with the shared id, contradicting
the claim that each permissively parsed entry is persisted as its own
record with its own text and tag. -/
theorem route_permissive_entries_not_saved_cex :
    parse_llm_response permText = [] ∧
    parse_complex_llm_response permText = [⟨"hello", "-"⟩] ∧
    route_transcription (fun _ => some 9) (okH allTrue) permText "calendar" none =
      (Except.ok ⟨"success", some 9, "calendar", true, 1, 1,
          [⟨none, "hello", "-", true⟩], none⟩,
       ⟨[(permText, "calendar")],
        [⟨"hello", "-", some 9, Except.ok true⟩]⟩) ∧
    ((permText, "calendar") ≠ (("hello" : String), ("-" : String))) :=
  ⟨rfl, rfl, rfl, by decide⟩

/-- C4 amended: when the strict parser yields zero entries before saving,
the whole text/tag is persisted as a single record; entries recovered
afterwards by the permissive parser are not persisted individually — each
is dispatched (tag stripped) with the single record's shared id, and the
result's `db_id` is that single record's id. -/
theorem route_permissive_entries_shared_id
    (save : Nat → Option Nat) (b : Handler → String → Option Nat → Bool)
    (text tag : String) (es : List Entry) (d : Nat)
    (res : RoutingResult) (tr : RouteTrace)
    (hgt : multiGate tag = false)
    (hgx : multiGate text = true)
    (hstrict : parse_llm_response text = [])
    (hperm : parse_complex_llm_response text = es)
    (hne : es ≠ [])
    (hsave : save 0 = some d)
    (hrun : route_transcription save (okH b) text tag none = (Except.ok res, tr)) :
    tr.saves = [(text, tag)] ∧
    res.db_id = some d ∧
    tr.dispatches = es.map (fun e => ⟨e.text, pyStrip e.tag, some d,
        Except.ok (pureDispatch b e.text (pyStrip e.tag) (some d))⟩) ∧
    res.processed_entries = es.map (fun e => ⟨none, pyTruncate e.text,
        pyStrip e.tag, pureDispatch b e.text (pyStrip e.tag) (some d)⟩) := by
  have hefi : entriesFromInput text tag = [] := by
    unfold entriesFromInput
    rw [hgt, hgx]
    simp [hstrict]
  have hfb : fallbackEntries text tag = es := by
    unfold fallbackEntries
    rw [hgt, hgx]
    simp [hstrict, hperm]
  cases es with
  | nil => exact absurd rfl hne
  | cons e0 es' =>
    rw [route_transcription, hefi] at hrun
    simp only at hrun
    rw [hsave] at hrun
    simp only at hrun
    rw [routeDispatch] at hrun
    simp only [List.isEmpty_nil, if_true] at hrun
    rw [hfb] at hrun
    simp only at hrun
    rw [processParsedLoop_okH] at hrun
    simp only [withSaves, Prod.mk.injEq] at hrun
    obtain ⟨h1, h2⟩ := hrun
    injection h1 with h1
    subst h1
    subst h2
    exact ⟨rfl, rfl, rfl, rfl⟩

/-- Witness for the amended C4 at the concrete permissive-only input. -/
theorem route_permissive_entries_shared_id_witness :
    (RouteTrace.mk [(permText, "calendar")]
        [⟨"hello", "-", some 9, Except.ok true⟩]).saves = [(permText, "calendar")] ∧
    (RoutingResult.mk "success" (some 9) "calendar" true 1 1
        [⟨none, "hello", "-", true⟩] none).db_id = some 9 ∧
    (RouteTrace.mk [(permText, "calendar")]
        [⟨"hello", "-", some 9, Except.ok true⟩]).dispatches =
      ([⟨"hello", "-"⟩] : List Entry).map (fun e => ⟨e.text, pyStrip e.tag, some 9,
          Except.ok (pureDispatch allTrue e.text (pyStrip e.tag) (some 9))⟩) ∧
    (RoutingResult.mk "success" (some 9) "calendar" true 1 1
        [⟨none, "hello", "-", true⟩] none).processed_entries =
      ([⟨"hello", "-"⟩] : List Entry).map (fun e => ⟨none, pyTruncate e.text,
          pyStrip e.tag, pureDispatch allTrue e.text (pyStrip e.tag) (some 9)⟩) :=
  route_permissive_entries_shared_id (fun _ => some 9) allTrue permText "calendar"
    [⟨"hello", "-"⟩] 9
    (RoutingResult.mk "success" (some 9) "calendar" true 1 1
      [⟨none, "hello", "-", true⟩] none)
    (RouteTrace.mk [(permText, "calendar")] [⟨"hello", "-", some 9, Except.ok true⟩])
    (by rfl) (by rfl) (by rfl) (by rfl) (by decide) (by rfl) (by rfl)

/-! ## C10: the single-entry path leaves processed_entries empty -/

/-- C10: whenever `route_transcription` takes the single-entry path (no
entries parsed from tag or text, the permissive fallback also empty, and
the save phase not failing) and returns a result, `entries_processed` is
1 and `success_count` is 0 or 1, but the single dispatched entry is never
appended to `processed_entries`, which stays empty. -/
theorem route_single_path_empty_processed
    (save : Nat → Option Nat) (h : Handler → String → Option Nat → Except Unit Bool)
    (text tag : String) (db_id : Option Nat) (res : RoutingResult) (tr : RouteTrace)
    (hefi : entriesFromInput text tag = [])
    (hfb : fallbackEntries text tag = [])
    (hpath : db_id ≠ none ∨ save 0 ≠ none)
    (hrun : route_transcription save h text tag db_id = (Except.ok res, tr)) :
    res.entries_processed = 1 ∧
    (res.success_count = 0 ∨ res.success_count = 1) ∧
    res.processed_entries = [] := by
  have hdisp : ∀ (d : Option Nat) (r1 : Except Unit RoutingResult)
      (cl : List DispatchCall), routeDispatch h text tag d [] [] = (r1, cl) →
      r1 = Except.ok res → res.entries_processed = 1 ∧
        (res.success_count = 0 ∨ res.success_count = 1) ∧
        res.processed_entries = [] := by
    intro d r1 cl hd hok
    rw [routeDispatch] at hd
    simp only [List.isEmpty_nil, if_true] at hd
    rw [hfb] at hd
    simp only at hd
    cases hpe : process_entry_by_tag h text tag d with
    | error u =>
      rw [hpe] at hd
      simp only [Prod.mk.injEq] at hd
      rw [← hd.1] at hok
      simp at hok
    | ok bb =>
      rw [hpe] at hd
      simp only [Prod.mk.injEq] at hd
      rw [← hd.1] at hok
      injection hok with hok
      rw [← hok]
      cases bb <;> simp
  cases db_id with
  | some d =>
    rw [route_transcription, hefi] at hrun
    cases hp : routeDispatch h text tag (some d) [] [] with
    | mk r1 cl =>
      rw [hp, withSaves] at hrun
      simp only [Prod.mk.injEq] at hrun
      exact hdisp (some d) r1 cl hp hrun.1
  | none =>
    rw [route_transcription, hefi] at hrun
    simp only at hrun
    cases hs : save 0 with
    | none =>
      rcases hpath with hl | hr
      · exact absurd rfl hl
      · exact absurd hs hr
    | some d =>
      rw [hs] at hrun
      simp only at hrun
      cases hp : routeDispatch h text tag (some d) [] [] with
      | mk r1 cl =>
        rw [hp, withSaves] at hrun
        simp only [Prod.mk.injEq] at hrun
        exact hdisp (some d) r1 cl hp hrun.1

/-- Witness for C10 at a single-entry invocation with an unknown tag. -/
theorem route_single_path_empty_processed_witness :
    (RoutingResult.mk "success" (some 3) "reminder" true 1 1 [] none).entries_processed
      = 1 ∧
    ((RoutingResult.mk "success" (some 3) "reminder" true 1 1 [] none).success_count = 0 ∨
     (RoutingResult.mk "success" (some 3) "reminder" true 1 1 [] none).success_count = 1) ∧
    (RoutingResult.mk "success" (some 3) "reminder" true 1 1 [] none).processed_entries
      = [] :=
  route_single_path_empty_processed (fun _ => some 3) (okH allFalse)
    "Lunch with Sam" "reminder" none
    (RoutingResult.mk "success" (some 3) "reminder" true 1 1 [] none)
    (RouteTrace.mk [("Lunch with Sam", "reminder")]
      [⟨"Lunch with Sam", "reminder", some 3, Except.ok true⟩])
    (by rfl) (by rfl) (Or.inr (by decide)) (by rfl)

/-! ## C8: lower-casing of extracted tags -/

/-- Helper: the numeric value of lower-casing an upper-case character. -/
theorem lowerChar_toNat_of_upper (c : Char) (hc : 'A' ≤ c ∧ c ≤ 'Z') :
    (lowerChar c).toNat = c.toNat + 32 := by
  rw [lowerChar, if_pos hc]
  have lb : 65 ≤ c.toNat := hc.1
  have ub : c.toNat ≤ 90 := hc.2
  have hval : (c.toNat + 32).isValidChar := Or.inl (by omega)
  rw [Char.ofNat, dif_pos hval]
  rfl

/-- Helper: lower-casing is idempotent on characters. -/
theorem lowerChar_idem (c : Char) : lowerChar (lowerChar c) = lowerChar c := by
  by_cases hc : 'A' ≤ c ∧ c ≤ 'Z'
  · have hv := lowerChar_toNat_of_upper c hc
    conv_lhs => rw [lowerChar]
    rw [if_neg]
    intro hcon
    have hz : (lowerChar c).toNat ≤ 90 := hcon.2
    have lb : 65 ≤ c.toNat := hc.1
    omega
  · have hcc : lowerChar c = c := by rw [lowerChar, if_neg hc]
    rw [hcc, hcc]

/-- Helper: `str.lower` fixes any already-lower-cased character list. -/
theorem pyLower_map_lowerChar (l : List Char) :
    pyLower ⟨l.map lowerChar⟩ = ⟨l.map lowerChar⟩ := by
  unfold pyLower
  congr 1
  rw [List.map_map]
  apply List.map_congr_left
  intro c _
  simp only [Function.comp_apply]
  exact lowerChar_idem c

/-- Helper: the tag value found by the line-scan fallback is always an
application of the lower-casing map. -/
theorem findTagLine_shape :
    ∀ (lines : List (List Char)) (i ti : Nat) (tv : List Char),
      findTagLine lines i = some (ti, tv) → ∃ l, tv = List.map lowerChar l
  | [], _, _, _, h => by simp [findTagLine] at h
  | l :: ls, i, ti, tv, h => by
    rw [findTagLine] at h
    split at h
    · injection h with h
      injection h with h1 h2
      exact ⟨pyStripCore ((pyStripCore l).drop 4), h2.symm⟩
    · exact findTagLine_shape ls (i + 1) ti tv h

/-- Helper: entries from the line-scan fallback carry a lower-cased tag. -/
theorem lineScanBlock_tag_shape (b : List Char) (e : Entry)
    (he : e ∈ lineScanBlock b) : ∃ l, e.tag = ⟨List.map lowerChar l⟩ := by
  rw [lineScanBlock] at he
  cases hft : findTagLine (pySplitLines (pyStripCore b)) 0 with
  | none => rw [hft] at he; simp at he
  | some p =>
    obtain ⟨ti, tv⟩ := p
    rw [hft] at he
    simp only at he
    split at he
    · split at he <;>
        (split at he
         · simp only [List.mem_singleton] at he
           subst he
           obtain ⟨l, hl⟩ := findTagLine_shape _ 0 ti tv hft
           exact ⟨l, by rw [hl]⟩
         · simp at he)
    · simp at he

/-- Helper: every entry the strict parser produces carries a tag in the
image of the lower-casing map. -/
theorem parseBlockStrict_tag_shape (b : List Char) (e : Entry)
    (he : e ∈ parseBlockStrict b) : ∃ l, e.tag = ⟨List.map lowerChar l⟩ := by
  rw [parseBlockStrict] at he
  have helse : ∀ he' : e ∈ (if hasSub textKey b ∧ hasSub tagKey b
      then lineScanBlock b else []), ∃ l, e.tag = ⟨List.map lowerChar l⟩ := by
    intro he'
    split at he'
    · exact lineScanBlock_tag_shape b e he'
    · simp at he'
  cases ht : searchTag b with
  | none =>
    rw [ht] at he
    cases hq : searchQuotedText b with
    | some g =>
      rw [hq] at he
      simp only at he
      exact helse he
    | none =>
      rw [hq] at he
      simp only at he
      cases hu : searchUnquotedText b with
      | some g => rw [hu] at he; simp only at he; exact helse he
      | none => rw [hu] at he; simp only at he; exact helse he
  | some tg =>
    rw [ht] at he
    cases hq : searchQuotedText b with
    | some g =>
      rw [hq] at he
      simp only [List.mem_singleton] at he
      subst he
      exact ⟨pyStripCore tg, rfl⟩
    | none =>
      rw [hq] at he
      simp only at he
      cases hu : searchUnquotedText b with
      | some g =>
        rw [hu] at he
        simp only [List.mem_singleton] at he
        subst he
        exact ⟨pyStripCore tg, rfl⟩
      | none =>
        rw [hu] at he
        simp only at he
        exact helse he

/-- C8 counterexample: the permissive parser does not lower-case the tag
value: on `text: hi` / `tag: TODO` it returns the tag `"TODO"`
unchanged, which is not lower-cased. -/
theorem parse_complex_no_lowercase_cex :
    parse_complex_llm_response "text: hi\ntag: TODO" = [⟨"hi", "TODO"⟩] ∧
    pyLower "TODO" ≠ "TODO" :=
  ⟨rfl, by decide⟩

/-- C8 amended: every entry returned by the strict parser
`parse_llm_response` has a lower-cased tag (both its regex path and its
line-scan fallback apply `.lower()`); the permissive parser
`parse_complex_llm_response` strips but does not lower-case, and
lower-casing for dispatch happens in `process_entry_by_tag` instead. -/
theorem parse_strict_tags_lowercased (s : String) (e : Entry)
    (he : e ∈ parse_llm_response s) : pyLower e.tag = e.tag := by
  rw [parse_llm_response] at he
  obtain ⟨b, _, heb⟩ := List.mem_flatMap.mp he
  obtain ⟨l, hl⟩ := parseBlockStrict_tag_shape b e heb
  rw [hl]
  exact pyLower_map_lowerChar l

/-- Witness for the amended C8 on a concrete parsed entry. -/
theorem parse_strict_tags_lowercased_witness :
    pyLower "calendar" = "calendar" :=
  parse_strict_tags_lowercased twoEntryTag ⟨"a", "calendar"⟩ (by decide)

/-! ## C7: what a block must contain to contribute an entry -/

/-- Helper: a successful leftmost scan succeeds at some suffix. -/
theorem scanL_eq_some {α : Type} (t : List Char → Option α) :
    ∀ (cs : List Char) (a : α), scanL t cs = some a →
      ∃ s, s <:+ cs ∧ t s = some a
  | [], a, h => ⟨[], List.suffix_refl [], h⟩
  | c :: rest, a, h => by
    rw [scanL] at h
    cases ht : t (c :: rest) with
    | some b =>
      rw [ht] at h
      simp only at h
      injection h with h
      subst h
      exact ⟨c :: rest, List.suffix_refl _, ht⟩
    | none =>
      rw [ht] at h
      simp only at h
      obtain ⟨s, hs, hts⟩ := scanL_eq_some t rest a h
      exact ⟨s, hs.trans (List.suffix_cons c rest), hts⟩

/-- Helper: a pattern prefixing some suffix is a substring. -/
theorem hasSub_of_suffix (pat : List Char) :
    ∀ (cs s : List Char), s <:+ cs → pat.isPrefixOf s = true → hasSub pat cs = true
  | [], s, hs, hp => by
    rw [List.suffix_nil] at hs
    subst hs
    exact hp
  | c :: rest, s, hs, hp => by
    rw [hasSub]
    rcases List.suffix_cons_iff.mp hs with heq | hs'
    · subst heq
      simp [hp]
    · simp [hasSub_of_suffix pat rest s hs' hp]

/-- Helper: the quoted-text matcher only succeeds at a `text:` literal. -/
theorem tryQuotedText_isPrefixOf (s g : List Char)
    (h : tryQuotedText s = some g) : textKey.isPrefixOf s = true := by
  unfold tryQuotedText at h
  split at h
  · assumption
  · exact absurd h (by simp)

/-- Helper: the unquoted-text matcher only succeeds at a `text:` literal. -/
theorem tryUnquotedText_isPrefixOf (s g : List Char)
    (h : tryUnquotedText s = some g) : textKey.isPrefixOf s = true := by
  unfold tryUnquotedText at h
  split at h
  · assumption
  · exact absurd h (by simp)

/-- Helper: the tag matcher only succeeds at a `tag:` literal. -/
theorem tryTag_isPrefixOf (s g : List Char)
    (h : tryTag s = some g) : tagKey.isPrefixOf s = true := by
  unfold tryTag at h
  split at h
  · assumption
  · exact absurd h (by simp)

/-- Helper: word characters are not whitespace. -/
theorem word_not_space (c : Char) (h : isWordChar c = true) : isPySpace c = false := by
  have hn : 48 ≤ c.toNat ∧ c.toNat ≤ 122 := by
    unfold isWordChar at h
    simp only [Bool.or_eq_true, Bool.and_eq_true, decide_eq_true_eq] at h
    rcases h with ((⟨h1, h2⟩ | ⟨h1, h2⟩) | ⟨h1, h2⟩) | h1
    · have l1 : 97 ≤ c.toNat := h1
      have l2 : c.toNat ≤ 122 := h2
      omega
    · have l1 : 65 ≤ c.toNat := h1
      have l2 : c.toNat ≤ 90 := h2
      omega
    · have l1 : 48 ≤ c.toNat := h1
      have l2 : c.toNat ≤ 57 := h2
      omega
    · subst h1
      exact ⟨by decide, by decide⟩
  unfold isPySpace
  simp only [Bool.or_eq_false_iff, decide_eq_false_iff_not]
  refine ⟨⟨⟨⟨⟨?_, ?_⟩, ?_⟩, ?_⟩, ?_⟩, ?_⟩ <;>
    (intro heq; subst heq; exact absurd hn (by decide))

/-- Helper: an element failing the predicate survives `dropWhile`. -/
theorem mem_dropWhile_of_mem {p : Char → Bool} :
    ∀ {l : List Char} {c : Char}, c ∈ l → p c = false → c ∈ l.dropWhile p
  | x :: xs, c, hm, hp => by
    rw [List.dropWhile_cons]
    by_cases hx : p x = true
    · simp only [hx, if_true]
      rcases List.mem_cons.mp hm with heq | hm'
      · subst heq
        rw [hx] at hp
        exact absurd hp (by decide)
      · exact mem_dropWhile_of_mem hm' hp
    · simp only [hx, if_false]
      exact hm

/-- Helper: a non-whitespace element survives `str.strip`. -/
theorem mem_pyStripCore {c : Char} {l : List Char} (hm : c ∈ l)
    (hns : isPySpace c = false) : c ∈ pyStripCore l := by
  unfold pyStripCore
  exact List.mem_reverse.mpr
    (mem_dropWhile_of_mem (List.mem_reverse.mpr (mem_dropWhile_of_mem hm hns)) hns)

/-- Helper: the head word character belongs to the captured tag group. -/
theorem mem_tagGroupGo_head (c0 : Char) (r : List Char) (hw : isWordChar c0 = true) :
    c0 ∈ tagGroupGo (c0 :: r) := by
  unfold tagGroupGo
  apply List.mem_reverse.mpr
  apply mem_dropWhile_of_mem _ (word_not_space c0 hw)
  apply List.mem_reverse.mpr
  rw [List.takeWhile_cons]
  simp [hw]

/-- Helper: a successful tag matcher returns the group of a non-empty
word-character-led run. -/
theorem tryTag_shape (s tg : List Char) (h : tryTag s = some tg) :
    ∃ c0 r', tg = tagGroupGo (c0 :: r') ∧ isWordChar c0 = true := by
  unfold tryTag at h
  split at h
  · split at h
    · rename_i hw
      injection h with h
      cases hr : (s.drop 4).dropWhile isPySpace with
      | nil =>
        rw [hr] at hw
        exact absurd hw (by decide)
      | cons c0 r' =>
        rw [hr] at hw h
        exact ⟨c0, r', h.symm, hw⟩
    · exact absurd h (by simp)
  · exact absurd h (by simp)

/-- Helper: a successful tag search yields a group that still has content
after stripping. -/
theorem searchTag_strip_ne_nil (b tg : List Char) (h : searchTag b = some tg) :
    pyStripCore tg ≠ [] := by
  obtain ⟨s, _, hts⟩ := scanL_eq_some tryTag b tg h
  obtain ⟨c0, r', htg, hw⟩ := tryTag_shape s tg hts
  have hc0 : c0 ∈ tg := htg ▸ mem_tagGroupGo_head c0 r' hw
  exact List.ne_nil_of_mem (mem_pyStripCore hc0 (word_not_space c0 hw))

/-- Helper: a block missing the `text:` or `tag:` marker contributes no
entry. -/
theorem parseBlockStrict_eq_nil_of_missing (b : List Char)
    (hmiss : hasSub textKey b = false ∨ hasSub tagKey b = false) :
    parseBlockStrict b = [] := by
  have hguard : ¬ (hasSub textKey b = true ∧ hasSub tagKey b = true) := by
    rcases hmiss with hm | hm <;> simp [hm]
  rw [parseBlockStrict]
  rcases hmiss with hm | hm
  · have hq : searchQuotedText b = none := by
      cases hq' : searchQuotedText b with
      | none => rfl
      | some g =>
        obtain ⟨s, hs, hts⟩ := scanL_eq_some _ b g hq'
        have hsub := hasSub_of_suffix textKey b s hs (tryQuotedText_isPrefixOf s g hts)
        rw [hm] at hsub
        exact absurd hsub (by decide)
    have hu : searchUnquotedText b = none := by
      cases hu' : searchUnquotedText b with
      | none => rfl
      | some g =>
        obtain ⟨s, hs, hts⟩ := scanL_eq_some _ b g hu'
        have hsub := hasSub_of_suffix textKey b s hs (tryUnquotedText_isPrefixOf s g hts)
        rw [hm] at hsub
        exact absurd hsub (by decide)
    cases ht : searchTag b with
    | none =>
      simp only [hq, hu, ht]
      rw [if_neg hguard]
    | some tg =>
      simp only [hq, hu, ht]
      rw [if_neg hguard]
  · have ht : searchTag b = none := by
      cases ht' : searchTag b with
      | none => rfl
      | some g =>
        obtain ⟨s, hs, hts⟩ := scanL_eq_some _ b g ht'
        have hsub := hasSub_of_suffix tagKey b s hs (tryTag_isPrefixOf s g hts)
        rw [hm] at hsub
        exact absurd hsub (by decide)
    cases hq : searchQuotedText b with
    | some g =>
      simp only [hq, ht]
      rw [if_neg hguard]
    | none =>
      cases hu : searchUnquotedText b with
      | some g =>
        simp only [hq, hu, ht]
        rw [if_neg hguard]
      | none =>
        simp only [hq, hu, ht]
        rw [if_neg hguard]

/-- Helper: every entry the strict parser produces has a non-empty tag. -/
theorem parseBlockStrict_tag_ne_empty (b : List Char) (e : Entry)
    (he : e ∈ parseBlockStrict b) : e.tag ≠ "" := by
  have hstr : ∀ (l : List Char), l ≠ [] → (⟨l⟩ : String) ≠ "" := by
    intro l hl hcon
    exact hl (congrArg String.data hcon)
  have hline : ∀ he' : e ∈ lineScanBlock b, e.tag ≠ "" := by
    intro he'
    rw [lineScanBlock] at he'
    cases hft : findTagLine (pySplitLines (pyStripCore b)) 0 with
    | none => rw [hft] at he'; simp at he'
    | some p =>
      obtain ⟨ti, tv⟩ := p
      rw [hft] at he'
      simp only at he'
      split at he'
      · split at he' <;>
          (split at he'
           · rename_i hguard
             simp only [List.mem_singleton] at he'
             subst he'
             exact hstr tv hguard.2
           · simp at he')
      · simp at he'
  rw [parseBlockStrict] at he
  have helse : ∀ he' : e ∈ (if hasSub textKey b ∧ hasSub tagKey b
      then lineScanBlock b else []), e.tag ≠ "" := by
    intro he'
    split at he'
    · exact hline he'
    · simp at he'
  cases ht : searchTag b with
  | none =>
    rw [ht] at he
    cases hq : searchQuotedText b with
    | some g =>
      rw [hq] at he
      simp only at he
      exact helse he
    | none =>
      rw [hq] at he
      simp only at he
      cases hu : searchUnquotedText b with
      | some g => rw [hu] at he; simp only at he; exact helse he
      | none => rw [hu] at he; simp only at he; exact helse he
  | some tg =>
    rw [ht] at he
    have hne := searchTag_strip_ne_nil b tg ht
    have hmap : (pyStripCore tg).map lowerChar ≠ [] := by
      intro hcon
      exact hne (List.map_eq_nil.mp hcon)
    cases hq : searchQuotedText b with
    | some g =>
      rw [hq] at he
      simp only [List.mem_singleton] at he
      subst he
      exact hstr _ hmap
    | none =>
      rw [hq] at he
      simp only at he
      cases hu : searchUnquotedText b with
      | some g =>
        rw [hu] at he
        simp only [List.mem_singleton] at he
        subst he
        exact hstr _ hmap
      | none =>
        rw [hu] at he
        simp only at he
        exact helse he

/-- C7 counterexample: a block whose quoted text is empty contributes an
entry whose text is the empty string (the regex path never checks the
extracted text for non-emptiness), contradicting the claim that no entry
with empty text appears. -/
theorem parse_empty_text_entry_cex :
    parse_llm_response "text: \"\"\ntag: x" = [⟨"", "x"⟩] ∧
    (Entry.mk "" "x") ∈ parse_llm_response "text: \"\"\ntag: x" ∧
    (Entry.mk "" "x").text = "" :=
  ⟨rfl, by decide, rfl⟩

/-- C7 amended: the parser is total (it never raises), a block lacking
either the `text:` or the `tag:` marker contributes nothing, and every
produced entry has a non-empty tag; however an entry's text can be empty
(the non-emptiness check guards only the line-scan fallback, not the
regex path, as the counterexample shows). -/
theorem parse_block_requires_markers (s : String) :
    (∀ b ∈ strictBlocks s, (hasSub textKey b = false ∨ hasSub tagKey b = false) →
      parseBlockStrict b = []) ∧
    (∀ e ∈ parse_llm_response s, e.tag ≠ "") := by
  constructor
  · intro b _ hmiss
    exact parseBlockStrict_eq_nil_of_missing b hmiss
  · intro e he
    rw [parse_llm_response] at he
    obtain ⟨b, _, heb⟩ := List.mem_flatMap.mp he
    exact parseBlockStrict_tag_ne_empty b e heb

/-- Witness for the amended C7: a markerless block contributes nothing,
and a produced entry has a non-empty tag. -/
theorem parse_block_requires_markers_witness :
    parseBlockStrict ("hello world".data) = [] ∧ ("calendar" : String) ≠ "" :=
  ⟨(parse_block_requires_markers "hello world").1 ("hello world".data) (by decide)
      (Or.inl (by decide)),
   (parse_block_requires_markers twoEntryTag).2 ⟨"a", "calendar"⟩ (by decide)⟩

/-! ## C6: well-formed multi-block inputs parse one entry per block -/

/-- Helper: a list with no blank line is a single split part. -/
theorem pySplitBlank_single : ∀ (b : List Char), noBlank b = true →
    pySplitBlank b = [b]
  | [], _ => rfl
  | [_], _ => rfl
  | c :: d :: b', hnb => by
    rw [noBlank] at hnb
    rw [Bool.and_eq_true] at hnb
    obtain ⟨hnd, htl⟩ := hnb
    rw [pySplitBlank, if_neg (by
      intro ⟨h1, h2⟩
      subst h1
      subst h2
      simp at hnd)]
    rw [pySplitBlank_single (d :: b') htl]

/-- Helper: a blank line after a clean part cuts exactly there. -/
theorem pySplitBlank_append : ∀ (b r : List Char), noBlank b = true →
    b.getLast? ≠ some '\n' →
    pySplitBlank (b ++ '\n' :: '\n' :: r) = b :: pySplitBlank r
  | [], r, _, _ => by
    rw [List.nil_append, pySplitBlank, if_pos ⟨rfl, rfl⟩]
  | [c], r, _, hl => by
    have hc : c ≠ '\n' := by
      intro heq
      exact hl (by rw [heq]; rfl)
    rw [List.cons_append, List.nil_append, pySplitBlank,
      if_neg (by intro hcon; exact hc hcon.1)]
    rw [show pySplitBlank ('\n' :: '\n' :: r) = [] :: pySplitBlank r from by
      rw [pySplitBlank, if_pos ⟨rfl, rfl⟩]]
  | c :: d :: b', r, hnb, hl => by
    rw [noBlank] at hnb
    rw [Bool.and_eq_true] at hnb
    obtain ⟨hnd, htl⟩ := hnb
    have hl' : (d :: b').getLast? ≠ some '\n' := by
      rwa [List.getLast?_cons_cons] at hl
    have ih := pySplitBlank_append (d :: b') r htl hl'
    rw [List.cons_append, List.cons_append, pySplitBlank, if_neg (by
      intro ⟨h1, h2⟩
      subst h1
      subst h2
      simp at hnd)]
    rw [show d :: (b' ++ '\n' :: '\n' :: r) = (d :: b') ++ '\n' :: '\n' :: r from rfl,
      ih]

/-- Helper: splitting the blank-line join of clean blocks recovers the
blocks. -/
theorem pySplitBlank_joinBlocks :
    ∀ (bs : List (List Char)),
      (∀ b ∈ bs, noBlank b = true ∧ b.getLast? ≠ some '\n') →
      bs ≠ [] → pySplitBlank (joinBlocks bs) = bs
  | [], _, hne => absurd rfl hne
  | [b], h, _ => by
    rw [joinBlocks]
    exact pySplitBlank_single b (h b (by simp)).1
  | b :: b2 :: bs', h, _ => by
    rw [joinBlocks]
    rw [pySplitBlank_append b _ (h b (by simp)).1 (h b (by simp)).2]
    rw [pySplitBlank_joinBlocks (b2 :: bs')
      (fun x hx => h x (List.mem_cons_of_mem b hx)) (by simp)]

/-- Helper: a newline-free list has no blank line. -/
theorem noBlank_of_no_newline : ∀ (l : List Char), (∀ c ∈ l, c ≠ '\n') →
    noBlank l = true
  | [], _ => rfl
  | [_], _ => rfl
  | c :: d :: l', h => by
    rw [noBlank]
    have hc : c ≠ '\n' := h c (by simp)
    simp [hc, noBlank_of_no_newline (d :: l') (fun x hx => h x (List.mem_cons_of_mem c hx))]

/-- Helper: putting one newline between two newline-free lists produces no
blank line. -/
theorem noBlank_of_single : ∀ (A B : List Char), (∀ c ∈ A, c ≠ '\n') →
    (∀ c ∈ B, c ≠ '\n') → noBlank (A ++ '\n' :: B) = true
  | [], B, _, hB => by
    cases B with
    | nil => rfl
    | cons b B' =>
      rw [List.nil_append]
      show (!('\n' == '\n' && b == '\n') && noBlank (b :: B')) = true
      have hb : b ≠ '\n' := hB b (by simp)
      simp [hb, noBlank_of_no_newline (b :: B') hB]
  | [a], B, hA, hB => by
    rw [List.cons_append, List.nil_append]
    show (!(a == '\n' && '\n' == '\n') && noBlank ('\n' :: B)) = true
    have ha : a ≠ '\n' := hA a (by simp)
    have hrest := noBlank_of_single [] B (by simp) hB
    rw [List.nil_append] at hrest
    simp [ha, hrest]
  | a :: a2 :: A', B, hA, hB => by
    rw [List.cons_append]
    show (!(a == '\n' && a2 == '\n') && noBlank (a2 :: (A' ++ '\n' :: B))) = true
    have ha : a ≠ '\n' := hA a (by simp)
    have hrest := noBlank_of_single (a2 :: A') B
      (fun c hc => hA c (List.mem_cons_of_mem a hc)) hB
    rw [List.cons_append] at hrest
    simp [ha, hrest]

/-- Helper: stripping trailing whitespace fixes a list whose last element
is not whitespace. -/
theorem rstrip_eq_self (l : List Char)
    (hl : isPySpace ((l.getLast?).getD 'x') = false) :
    (l.reverse.dropWhile isPySpace).reverse = l := by
  cases hrev : l.reverse with
  | nil =>
    have : l = [] := by simpa using congrArg List.reverse hrev
    subst this
    rfl
  | cons x xs =>
    have hx : l.getLast? = some x := by
      rw [← List.head?_reverse, hrev]
      rfl
    rw [hx] at hl
    simp only [Option.getD_some] at hl
    rw [List.dropWhile_cons, if_neg (by simp [hl])]
    rw [← hrev, List.reverse_reverse]

/-- Helper: `str.strip` fixes a list bounded by non-whitespace. -/
theorem pyStripCore_eq_self (l : List Char)
    (hh : isPySpace (l.headD 'x') = false)
    (hl : isPySpace ((l.getLast?).getD 'x') = false) :
    pyStripCore l = l := by
  cases l with
  | nil => rfl
  | cons c l' =>
    rw [pyStripCore]
    rw [List.dropWhile_cons, if_neg (by simpa using hh)]
    exact rstrip_eq_self (c :: l') hl

/-- Helper: `takeWhile` keeps a list all of whose elements satisfy the
predicate. -/
theorem takeWhile_eq_self_of_all {p : Char → Bool} :
    ∀ (l : List Char), (∀ c ∈ l, p c = true) → l.takeWhile p = l
  | [], _ => rfl
  | c :: l', h => by
    rw [List.takeWhile_cons, if_pos (h c (by simp))]
    rw [takeWhile_eq_self_of_all l' (fun x hx => h x (List.mem_cons_of_mem c hx))]

/-- Helper: the characters of a well-formed tag payload are word
characters or spaces, hence never newlines, and its first and last
characters are word characters. -/
theorem goodTag_facts (g : List Char) (hg : goodTag g = true) :
    g ≠ [] ∧ (∀ c ∈ g, c ≠ '\n') ∧ isWordChar (g.headD ' ') = true ∧
      isWordChar ((g.getLast?).getD ' ') = true := by
  unfold goodTag at hg
  simp only [Bool.and_eq_true] at hg
  obtain ⟨⟨⟨h1, h2⟩, h3⟩, h4⟩ := hg
  refine ⟨?_, ?_, h3, ?_⟩
  · intro hcon
    subst hcon
    simp at h1
  · intro c hc heq
    subst heq
    have hcc := List.all_eq_true.mp h2 _ hc
    exact absurd hcc (by decide)
  · simp only [List.getLastD_eq_getLast?] at h4
    exact h4

/-- Helper: the characters of a well-formed text payload are not quotes
or newlines, and the payload holds no `tag:` marker. -/
theorem goodText_facts (t : List Char) (ht : goodText t = true) :
    (∀ c ∈ t, c ≠ '"' ∧ c ≠ '\n') ∧ hasSub tagKey t = false := by
  unfold goodText at ht
  simp only [Bool.and_eq_true, Bool.not_eq_true'] at ht
  obtain ⟨h1, h2⟩ := ht
  refine ⟨?_, h2⟩
  intro c hc
  have hcc := List.all_eq_true.mp h1 _ hc
  simp only [Bool.and_eq_true, Bool.not_eq_true'] at hcc
  constructor
  · intro heq
    subst heq
    simp at hcc
  · intro heq
    subst heq
    simp at hcc

/-- Helper: a well-formed block is clean: no blank line, no trailing
newline, fixed by stripping, and non-empty. -/
theorem mkBlock_clean (t g : List Char) (hgt : goodText t = true)
    (hgg : goodTag g = true) :
    noBlank (mkBlock t g) = true ∧ (mkBlock t g).getLast? ≠ some '\n' ∧
      pyStripCore (mkBlock t g) = mkBlock t g ∧ mkBlock t g ≠ [] := by
  obtain ⟨htc, _⟩ := goodText_facts t hgt
  obtain ⟨hgne, hgn, hghead, hglast⟩ := goodTag_facts g hgg
  have hsplit : mkBlock t g =
      ('t' :: 'e' :: 'x' :: 't' :: ':' :: ' ' :: '"' :: (t ++ ['"'])) ++ '\n' ::
        ('t' :: 'a' :: 'g' :: ':' :: ' ' :: g) := by
    simp [mkBlock, textKey, tagKey]
  have hsplit2 : mkBlock t g =
      ('t' :: 'e' :: 'x' :: 't' :: ':' :: ' ' :: '"' ::
        (t ++ '"' :: '\n' :: 't' :: 'a' :: 'g' :: ':' :: [' '])) ++ g := by
    simp [mkBlock, textKey, tagKey]
  have hA : ∀ c ∈ 't' :: 'e' :: 'x' :: 't' :: ':' :: ' ' :: '"' :: (t ++ ['"']),
      c ≠ '\n' := by
    intro c hc heq
    subst heq
    simp only [List.mem_cons, List.mem_append, List.mem_singleton] at hc
    rcases hc with h|h|h|h|h|h|h|h
    · exact absurd h (by decide)
    · exact absurd h (by decide)
    · exact absurd h (by decide)
    · exact absurd h (by decide)
    · exact absurd h (by decide)
    · exact absurd h (by decide)
    · exact absurd h (by decide)
    · rcases h with h | h
      · exact (htc _ h).2 rfl
      · exact absurd h (by decide)
  have hB : ∀ c ∈ 't' :: 'a' :: 'g' :: ':' :: ' ' :: g, c ≠ '\n' := by
    intro c hc heq
    subst heq
    simp only [List.mem_cons] at hc
    rcases hc with h|h|h|h|h|h
    · exact absurd h (by decide)
    · exact absurd h (by decide)
    · exact absurd h (by decide)
    · exact absurd h (by decide)
    · exact absurd h (by decide)
    · exact hgn _ h rfl
  have hlast : (mkBlock t g).getLast? = g.getLast? := by
    rw [hsplit2]
    exact List.getLast?_append_of_ne_nil _ hgne
  have hlastns : isPySpace (((mkBlock t g).getLast?).getD 'x') = false := by
    rw [hlast]
    cases hgl : g.getLast? with
    | none =>
      rw [hgl] at hglast
      exact absurd hglast (by decide)
    | some x =>
      rw [hgl] at hglast
      simp only [Option.getD_some] at hglast ⊢
      exact word_not_space x hglast
  refine ⟨?_, ?_, ?_, ?_⟩
  · rw [hsplit]
    exact noBlank_of_single _ _ hA hB
  · intro hcon
    rw [hlast] at hcon
    rw [hcon] at hglast
    exact absurd hglast (by decide)
  · apply pyStripCore_eq_self
    · rw [show (mkBlock t g).headD 'x' = 't' from by simp [mkBlock, textKey]]
      decide
    · exact hlastns
  · simp [mkBlock, textKey]

/-- Helper: the strict parser's block list of a well-formed join is the
block list itself. -/
theorem strictBlocks_joinBlocks (bs : List (List Char)) (hne : bs ≠ [])
    (hcl : ∀ b ∈ bs, noBlank b = true ∧ b.getLast? ≠ some '\n' ∧
      pyStripCore b = b ∧ b ≠ []) :
    strictBlocks ⟨joinBlocks bs⟩ = bs := by
  rw [strictBlocks]
  show ((pySplitBlank (joinBlocks bs)).map pyStripCore).filter (· ≠ []) = bs
  rw [pySplitBlank_joinBlocks bs (fun b hb => ⟨(hcl b hb).1, (hcl b hb).2.1⟩) hne]
  rw [List.map_congr_left (fun b hb => (hcl b hb).2.2.1), List.map_id']
  rw [List.filter_eq_self.mpr]
  intro b hb
  simp [(hcl b hb).2.2.2]

/-- Helper: a list prefixes itself followed by anything. -/
theorem isPrefixOf_append_self : ∀ (p r : List Char), p.isPrefixOf (p ++ r) = true
  | [], _ => List.isPrefixOf_nil_left
  | c :: p', r => by
    rw [List.cons_append]
    show (c == c && p'.isPrefixOf (p' ++ r)) = true
    simp [isPrefixOf_append_self p' r]

/-- Helper: whether a pattern prefixes a concatenation only depends on the
first part when that part is at least as long. -/
theorem isPrefixOf_append_of_le :
    ∀ (pat u r : List Char), pat.length ≤ u.length →
      pat.isPrefixOf (u ++ r) = pat.isPrefixOf u
  | [], u, r, _ => by simp [List.isPrefixOf_nil_left]
  | _ :: _, [], _, hlen => by simp at hlen
  | pc :: pat', uc :: u', r, hlen => by
    rw [List.cons_append]
    show (pc == uc && pat'.isPrefixOf (u' ++ r)) = (pc == uc && pat'.isPrefixOf u')
    rw [isPrefixOf_append_of_le pat' u' r (by
      simp only [List.length_cons] at hlen
      omega)]

/-- Helper: a pattern longer than the first part cannot prefix the
concatenation when the joining character is not among its characters. -/
theorem not_prefixOf_append_short :
    ∀ (pat u : List Char) (x : Char) (r : List Char),
      u.length < pat.length → x ∉ pat → pat.isPrefixOf (u ++ x :: r) = false
  | [], u, x, r, hlen, _ => by simp at hlen
  | pc :: pat', [], x, r, _, hx => by
    rw [List.nil_append]
    show (pc == x && pat'.isPrefixOf r) = false
    have hpc : pc ≠ x := fun h => hx (h ▸ List.mem_cons_self pc pat')
    simp [hpc]
  | pc :: pat', uc :: u', x, r, hlen, hx => by
    rw [List.cons_append]
    show (pc == uc && pat'.isPrefixOf (u' ++ x :: r)) = false
    rw [not_prefixOf_append_short pat' u' x r (by
        simp only [List.length_cons] at hlen
        omega)
      (fun hmem => hx (List.mem_cons_of_mem pc hmem))]
    simp

/-- Helper: a suffix of a concatenation is a suffix of the right part or
a non-empty suffix of the left part followed by the whole right part. -/
theorem suffix_append_cases :
    ∀ (l₁ q l₂ : List Char), q <:+ l₁ ++ l₂ →
      q <:+ l₂ ∨ ∃ q₁, q₁ <:+ l₁ ∧ q₁ ≠ [] ∧ q = q₁ ++ l₂
  | [], q, l₂, h => Or.inl (by simpa using h)
  | c :: l₁', q, l₂, h => by
    rw [List.cons_append] at h
    rcases List.suffix_cons_iff.mp h with heq | h'
    · exact Or.inr ⟨c :: l₁', List.suffix_refl _, by simp, by rw [heq, List.cons_append]⟩
    · rcases suffix_append_cases l₁' q l₂ h' with hl | ⟨q₁, hq₁, hne, heq⟩
      · exact Or.inl hl
      · exact Or.inr ⟨q₁, hq₁.trans (List.suffix_cons c l₁'), hne, heq⟩

/-- Helper: a scan succeeds immediately where the matcher does. -/
theorem scanL_of_here {α : Type} (t : List Char → Option α) :
    ∀ (cs : List Char) (a : α), t cs = some a → scanL t cs = some a
  | [], _, h => h
  | c :: rest, _, h => by rw [scanL, h]

/-- Helper: a scan skips a region where the matcher fails at every
position. -/
theorem scanL_skip {α : Type} (t : List Char → Option α) :
    ∀ (p s : List Char), (∀ q, q <:+ p → q ≠ [] → t (q ++ s) = none) →
      scanL t (p ++ s) = scanL t s
  | [], s, _ => by rw [List.nil_append]
  | c :: p', s, h => by
    have hnone : t (c :: (p' ++ s)) = none := by
      have hh := h (c :: p') (List.suffix_refl _) (by simp)
      rwa [List.cons_append] at hh
    rw [List.cons_append, scanL, hnone]
    simp only
    exact scanL_skip t p' s (fun q hq hne => h q (hq.trans (List.suffix_cons c p')) hne)

/-- Helper: `takeWhile` cuts exactly at the first failing element after a
run of passing ones. -/
theorem takeWhile_append_stop {p : Char → Bool} :
    ∀ (t : List Char) (x : Char) (r : List Char),
      (∀ c ∈ t, p c = true) → p x = false →
      (t ++ x :: r).takeWhile p = t
  | [], x, r, _, hx => by
    rw [List.nil_append, List.takeWhile_cons, if_neg (by simp [hx])]
  | c :: t', x, r, ht, hx => by
    rw [List.cons_append, List.takeWhile_cons, if_pos (ht c (by simp))]
    rw [takeWhile_append_stop t' x r (fun y hy => ht y (List.mem_cons_of_mem c hy)) hx]

/-- Helper: the quoted-text matcher at the head of a well-formed block
captures exactly the quoted payload. -/
theorem tryQuotedText_mkBlock (t g : List Char) (hgt : goodText t = true) :
    tryQuotedText (mkBlock t g) = some t := by
  obtain ⟨htc, _⟩ := goodText_facts t hgt
  have hshape : mkBlock t g =
      textKey ++ (' ' :: '"' :: (t ++ '"' :: '\n' :: (tagKey ++ ' ' :: g))) := by
    simp [mkBlock, textKey, tagKey]
  rw [tryQuotedText, hshape, isPrefixOf_append_self, if_pos rfl]
  rw [show (textKey ++ (' ' :: '"' :: (t ++ '"' :: '\n' :: (tagKey ++ ' ' :: g)))).drop 5
      = ' ' :: '"' :: (t ++ '"' :: '\n' :: (tagKey ++ ' ' :: g)) from
    List.drop_left textKey _]
  rw [show (' ' :: '"' :: (t ++ '"' :: '\n' :: (tagKey ++ ' ' :: g))).dropWhile isPySpace
      = '"' :: (t ++ '"' :: '\n' :: (tagKey ++ ' ' :: g)) from by
    rw [List.dropWhile_cons, if_pos (by decide), List.dropWhile_cons, if_neg (by decide)]]
  simp only
  rw [if_pos (by simp [List.any_append])]
  rw [takeWhile_append_stop t '"' _ (fun c hc => by simp [(htc c hc).1]) (by decide)]

/-- Helper: the quoted-text search finds the payload of a well-formed
block. -/
theorem searchQuotedText_mkBlock (t g : List Char) (hgt : goodText t = true) :
    searchQuotedText (mkBlock t g) = some t :=
  scanL_of_here _ _ _ (tryQuotedText_mkBlock t g hgt)

/-- Helper: a well-formed block carries the quoted marker, so the
multi-line fix-up of lines 47-58 is skipped. -/
theorem hasQuoteMarker_mkBlock (t g : List Char) :
    hasQuoteMarker (mkBlock t g) = true := by
  rw [hasQuoteMarker, scanL_of_here tryQuoteMarker _ () ?_]
  · rfl
  · have hshape : mkBlock t g =
        textKey ++ (' ' :: '"' :: (t ++ '"' :: '\n' :: (tagKey ++ ' ' :: g))) := by
      simp [mkBlock, textKey, tagKey]
    rw [tryQuoteMarker, hshape, isPrefixOf_append_self, if_pos rfl]
    rw [show (textKey ++ (' ' :: '"' :: (t ++ '"' :: '\n' :: (tagKey ++ ' ' :: g)))).drop 5
        = ' ' :: '"' :: (t ++ '"' :: '\n' :: (tagKey ++ ' ' :: g)) from
      List.drop_left textKey _]
    rw [show (' ' :: '"' :: (t ++ '"' :: '\n' :: (tagKey ++ ' ' :: g))).dropWhile isPySpace
        = '"' :: (t ++ '"' :: '\n' :: (tagKey ++ ' ' :: g)) from by
      rw [List.dropWhile_cons, if_pos (by decide), List.dropWhile_cons, if_neg (by decide)]]
    rfl

/-- Helper: the greedy tag group of a well-formed tag payload is the
payload itself. -/
theorem tagGroupGo_eq_self (g : List Char) (hgg : goodTag g = true) :
    tagGroupGo g = g := by
  obtain ⟨_, _, _, hglast⟩ := goodTag_facts g hgg
  have hall : ∀ c ∈ g, (isWordChar c || isPySpace c) = true := by
    unfold goodTag at hgg
    simp only [Bool.and_eq_true] at hgg
    intro c hc
    have hcg := List.all_eq_true.mp hgg.1.1.2 _ hc
    rw [Bool.or_eq_true] at hcg
    rcases hcg with hw | hsp
    · simp [hw]
    · have : c = ' ' := by simpa using hsp
      subst this
      decide
  rw [tagGroupGo, takeWhile_eq_self_of_all g hall]
  apply rstrip_eq_self
  cases hgl : g.getLast? with
  | none =>
    rw [hgl] at hglast
    exact absurd hglast (by decide)
  | some x =>
    rw [hgl] at hglast
    simp only [Option.getD_some] at hglast ⊢
    exact word_not_space x hglast

/-- Helper: the tag matcher at the `tag:` literal of a well-formed block
captures exactly the tag payload. -/
theorem tryTag_at_tagKey (g : List Char) (hgg : goodTag g = true) :
    tryTag (tagKey ++ ' ' :: g) = some g := by
  obtain ⟨_, _, hghead, _⟩ := goodTag_facts g hgg
  rw [tryTag, isPrefixOf_append_self, if_pos rfl]
  rw [show (tagKey ++ ' ' :: g).drop 4 = ' ' :: g from List.drop_left tagKey _]
  have hdw : (' ' :: g).dropWhile isPySpace = g := by
    rw [List.dropWhile_cons, if_pos (by decide)]
    cases hg0 : g with
    | nil => rfl
    | cons c g' =>
      rw [List.dropWhile_cons, if_neg ?_]
      rw [hg0] at hghead
      simp only [List.headD_cons] at hghead
      simp [word_not_space c hghead]
  rw [hdw, if_pos hghead, tagGroupGo_eq_self g hgg]

/-- Helper: the tag matcher fails where the `tag:` literal is not a
prefix. -/
theorem tryTag_none_of_not_prefix (s : List Char)
    (h : tagKey.isPrefixOf s = false) : tryTag s = none := by
  rw [tryTag]
  simp [h]

/-- Helper: nowhere before the `tag:` literal of a well-formed block does
the `tag:` pattern occur. -/
theorem tagKey_not_prefix_in_head (t : List Char)
    (hsub : hasSub tagKey t = false) (S : List Char) :
    ∀ q, q <:+ ('t' :: 'e' :: 'x' :: 't' :: ':' :: ' ' :: '"' :: (t ++ ['"', '\n'])) →
      q ≠ [] → tagKey.isPrefixOf (q ++ S) = false := by
  intro q hsuf hne
  have hsuf' : q <:+ ['t', 'e', 'x', 't', ':', ' ', '"'] ++ (t ++ ['"', '\n']) := by
    simpa using hsuf
  rcases suffix_append_cases _ q _ hsuf' with hin | ⟨q₁, hq₁, hne₁, heq⟩
  · rcases suffix_append_cases t q ['"', '\n'] hin with hin2 | ⟨q₂, hq₂, hne₂, heq₂⟩
    · rcases List.suffix_cons_iff.mp hin2 with h1 | h2
      · subst h1
        rfl
      · rcases List.suffix_cons_iff.mp h2 with h3 | h4
        · subst h3
          rfl
        · rw [List.suffix_nil] at h4
          exact absurd h4 hne
    · subst heq₂
      by_cases hlen : 4 ≤ q₂.length
      · rw [show (q₂ ++ ['"', '\n']) ++ S = q₂ ++ (['"', '\n'] ++ S) from by
          simp [List.append_assoc]]
        rw [isPrefixOf_append_of_le tagKey q₂ _ (by simpa [tagKey] using hlen)]
        cases hpq : tagKey.isPrefixOf q₂ with
        | false => rfl
        | true =>
          have hh := hasSub_of_suffix tagKey t q₂ hq₂ hpq
          rw [hsub] at hh
          exact absurd hh (by decide)
      · rw [show (q₂ ++ ['"', '\n']) ++ S = q₂ ++ '"' :: ('\n' :: S) from by simp]
        exact not_prefixOf_append_short tagKey q₂ '"' _
          (by simp only [tagKey, List.length_cons, List.length_nil]; omega)
          (by decide)
  · subst heq
    have hmem : q₁ ∈ List.tails ['t', 'e', 'x', 't', ':', ' ', '"'] :=
      (List.mem_tails _ _).mpr hq₁
    rw [show List.tails ['t', 'e', 'x', 't', ':', ' ', '"'] =
        [['t', 'e', 'x', 't', ':', ' ', '"'], ['e', 'x', 't', ':', ' ', '"'],
         ['x', 't', ':', ' ', '"'], ['t', ':', ' ', '"'], [':', ' ', '"'],
         [' ', '"'], ['"'], []] from by decide] at hmem
    simp only [List.mem_cons, List.not_mem_nil, or_false] at hmem
    rcases hmem with h|h|h|h|h|h|h|h
    · subst h; rfl
    · subst h; rfl
    · subst h; rfl
    · subst h; rfl
    · subst h; rfl
    · subst h; rfl
    · subst h; rfl
    · exact absurd h hne₁

/-- Helper: the tag search on a well-formed block finds exactly the tag
payload. -/
theorem searchTag_mkBlock (t g : List Char) (hgt : goodText t = true)
    (hgg : goodTag g = true) :
    searchTag (mkBlock t g) = some g := by
  obtain ⟨_, hsub⟩ := goodText_facts t hgt
  have hshape : mkBlock t g =
      ('t' :: 'e' :: 'x' :: 't' :: ':' :: ' ' :: '"' :: (t ++ ['"', '\n'])) ++
        (tagKey ++ ' ' :: g) := by
    simp [mkBlock, textKey, tagKey]
  rw [searchTag, hshape]
  rw [scanL_skip tryTag _ _ (fun q hq hne =>
    tryTag_none_of_not_prefix _ (tagKey_not_prefix_in_head t hsub _ q hq hne))]
  exact scanL_of_here _ _ _ (tryTag_at_tagKey g hgg)

/-- Helper: stripping fixes a well-formed tag payload. -/
theorem pyStripCore_goodTag (g : List Char) (hgg : goodTag g = true) :
    pyStripCore g = g := by
  obtain ⟨hgne, _, hghead, hglast⟩ := goodTag_facts g hgg
  apply pyStripCore_eq_self
  · cases hg0 : g with
    | nil => exact absurd hg0 hgne
    | cons c g' =>
      rw [hg0] at hghead
      simp only [List.headD_cons] at hghead ⊢
      exact word_not_space c hghead
  · cases hgl : g.getLast? with
    | none =>
      rw [hgl] at hglast
      exact absurd hglast (by decide)
    | some x =>
      rw [hgl] at hglast
      simp only [Option.getD_some] at hglast ⊢
      exact word_not_space x hglast

/-- Helper: the strict parser turns one well-formed block into exactly one
entry: the quoted payload stripped, and the tag payload lower-cased. -/
theorem parseBlockStrict_mkBlock (t g : List Char) (hgt : goodText t = true)
    (hgg : goodTag g = true) :
    parseBlockStrict (mkBlock t g) =
      [⟨⟨pyStripCore t⟩, ⟨g.map lowerChar⟩⟩] := by
  rw [parseBlockStrict]
  simp only [searchQuotedText_mkBlock t g hgt, searchTag_mkBlock t g hgt hgg]
  have hfix : multilineFix (mkBlock t g) (pyStripCore t) = pyStripCore t := by
    rw [multilineFix, if_neg ?_]
    intro hcon
    rw [hasQuoteMarker_mkBlock t g] at hcon
    exact absurd hcon.1 (by decide)
  rw [hfix, pyStripCore_goodTag g hgg]

/-- Helper: parsing a list of well-formed blocks maps each block to its
entry, in order. -/
theorem flatMap_parseBlock_mkBlocks :
    ∀ (ps : List (List Char × List Char)),
      (∀ p ∈ ps, goodText p.1 = true ∧ goodTag p.2 = true) →
      (ps.map (fun p => mkBlock p.1 p.2)).flatMap parseBlockStrict =
        ps.map (fun p => Entry.mk ⟨pyStripCore p.1⟩ ⟨p.2.map lowerChar⟩)
  | [], _ => rfl
  | p :: ps', h => by
    rw [List.map_cons, List.map_cons, List.flatMap_cons]
    rw [parseBlockStrict_mkBlock p.1 p.2 (h p (by simp)).1 (h p (by simp)).2]
    rw [flatMap_parseBlock_mkBlocks ps' (fun q hq => h q (List.mem_cons_of_mem p hq))]
    rfl

/-- C6 counterexample: on the well-formed block `text: " hi "` /
`tag: x`, the parser strips the quoted content, so the entry's text is
`"hi"`, not the quoted content `" hi "` — the claim that the text equals
the quoted content fails whenever that content carries surrounding
whitespace. -/
theorem parse_quoted_strips_text_cex :
    parse_llm_response "text: \" hi \"\ntag: x" = [⟨"hi", "x"⟩] ∧
    ("hi" : String) ≠ " hi " :=
  ⟨rfl, by decide⟩

/-- C6 amended: for every non-empty list of well-formed blocks — each
block one quoted `text:` line and one `tag:` line, the quoted payload
free of quotes, newlines and `tag:` markers, the tag payload non-empty
words and spaces — the strict parser returns exactly one entry per block,
in the blocks' order, with each entry's text equal to the quoted content
stripped of surrounding whitespace and each entry's category equal to the
tag value lower-cased (and stripped, which fixes it). -/
theorem parse_wellformed_blocks (ps : List (List Char × List Char))
    (hne : ps ≠ [])
    (hgood : ∀ p ∈ ps, goodText p.1 = true ∧ goodTag p.2 = true) :
    parse_llm_response ⟨joinBlocks (ps.map (fun p => mkBlock p.1 p.2))⟩ =
      ps.map (fun p => Entry.mk ⟨pyStripCore p.1⟩ ⟨p.2.map lowerChar⟩) := by
  rw [parse_llm_response]
  rw [strictBlocks_joinBlocks (ps.map (fun p => mkBlock p.1 p.2))
    (by simpa using hne)
    (by
      intro b hb
      rw [List.mem_map] at hb
      obtain ⟨p, hp, heq⟩ := hb
      subst heq
      exact mkBlock_clean p.1 p.2 (hgood p hp).1 (hgood p hp).2)]
  exact flatMap_parseBlock_mkBlocks ps hgood

/-- Witness for the amended C6 at the spec's own two-block example. -/
theorem parse_wellformed_blocks_witness :
    parse_llm_response ⟨joinBlocks
        ([(("Buy milk").data, ("to_do").data),
          (("Meet Bob at 3pm").data, ("calendar").data)].map
          (fun p => mkBlock p.1 p.2))⟩ =
      [⟨"Buy milk", "to_do"⟩, ⟨"Meet Bob at 3pm", "calendar"⟩] :=
  parse_wellformed_blocks
    [(("Buy milk").data, ("to_do").data),
     (("Meet Bob at 3pm").data, ("calendar").data)]
    (by decide) (by decide)

end Jassist


